import Mathlib

/-!
Verification of the go-fontstash repository: a shallow embedding of the
skyline atlas allocator (`fontstash/atlas.go`) and of the glyph cache,
rasterization pipeline, vertex batch and text layout (`fontstash.go`),
together with proofs of the spec's claims about them.

Conventions of the embedding:
* Go `int16` struct fields are modelled as `Int` with an explicit wrap
  (`wrap16`) applied exactly where Go performs an `int16` conversion or
  `int16` arithmetic.  Go `int` is modelled as unbounded `Int` (64-bit
  overflow is unreachable for the quantities involved).
* Go slices become `List`s; in-place mutation through a pointer becomes a
  functional update at the corresponding index.
* Fallible operations return `Option`/`Except` instead of using `-1`/`nil`
  sentinels, mirroring the source's checks one for one.
-/

namespace GoFontstash

/-- Two's-complement wrap to the `int16` range, the effect of Go's
`int16(...)` conversion and of `int16` arithmetic. -/
def wrap16 (n : Int) : Int := (n + 32768) % 65536 - 32768

/-- Two's-complement wrap to the `int32` range, the effect of Go's
`int32(...)` conversion and of `int32` arithmetic. -/
def wrap32 (n : Int) : Int := (n + 2147483648) % 4294967296 - 2147483648

theorem wrap16_eq {n : Int} (h1 : -32768 ≤ n) (h2 : n ≤ 32767) : wrap16 n = n := by
  unfold wrap16; omega

theorem wrap32_eq {n : Int} (h1 : -2147483648 ≤ n) (h2 : n ≤ 2147483647) :
    wrap32 n = n := by
  unfold wrap32; omega

/-- `atlasNode` from atlas.go: one skyline segment.  All three fields are
`int16` in Go. -/
structure AtlasNode where
  x : Int
  y : Int
  width : Int
deriving Repr, DecidableEq

/-- `Atlas` from atlas.go.  `width`/`height` are Go `int`. -/
structure Atlas where
  width : Int
  height : Int
  nodes : List AtlasNode
deriving Repr, DecidableEq

/-- `maxInt` from atlas.go. -/
def maxInt (a b : Int) : Int := if a > b then a else b

/-- `minInt` from atlas.go. -/
def minInt (a b : Int) : Int := if a < b then a else b

theorem maxInt_eq (a b : Int) : maxInt a b = max a b := by
  unfold maxInt; split <;> omega

/-- `newAtlas` from atlas.go (the `nnodes` capacity hint has no semantic
content for lists).  The root node is `{0, 0, int16(w)}`. -/
def newAtlas (w h : Int) : Atlas :=
  { width := w, height := h, nodes := [⟨0, 0, wrap16 w⟩] }

/-- `(*Atlas).insertNode` from atlas.go: insert `{int16(x), int16(y),
int16(w)}` at position `idx`. -/
def Atlas.insertNode (a : Atlas) (idx : Nat) (x y w : Int) : Atlas :=
  { a with nodes := a.nodes.take idx ++ ⟨wrap16 x, wrap16 y, wrap16 w⟩ :: a.nodes.drop idx }

/-- `(*Atlas).expand` from atlas.go: when widening, append one node
covering the added width; then update the dimensions. -/
def Atlas.expand (a : Atlas) (w h : Int) : Atlas :=
  let a1 := if w > a.width then a.insertNode a.nodes.length a.width 0 (w - a.width) else a
  { a1 with width := w, height := h }

/-- `(*Atlas).reset` from atlas.go: back to a single root node (the
receiver's previous contents are discarded wholesale). -/
def Atlas.reset (_a : Atlas) (w h : Int) : Atlas :=
  { width := w, height := h, nodes := [⟨0, 0, wrap16 w⟩] }

/-- The "delete skyline segments that fall under the shadow of the new
segment" loop of `addSkylineLevel`.  In the Go loop `i` always equals
`idx+1` at the head of an iteration (after a removal `i--` is undone by the
loop's `i++`), so `prev` is always the freshly inserted node and `e` below
is the constant `int16` value `prev.x + prev.width`.  A node wholly under
the shadow (`width - shrink ≤ 0`) is removed and the loop continues; a
partially shadowed node is trimmed on its left and the loop breaks; a node
past the shadow breaks immediately. -/
def trimShadow (e : Int) : List AtlasNode → List AtlasNode
  | [] => []
  | n :: rest =>
    if n.x < e then
      let shrink := wrap16 (e - n.x)
      let w' := wrap16 (n.width - shrink)
      if w' ≤ 0 then trimShadow e rest
      else ⟨wrap16 (n.x + shrink), n.y, w'⟩ :: rest
    else n :: rest

/-- The "merge same height skyline segments that are next to each other"
loop of `addSkylineLevel`.  After merging at `i` the Go loop re-examines
the same position (`i--` then `i++`), which is exactly the recursion on
the merged node; nodes before the merge point are never re-examined since
a merge does not change the `y` of the surviving node.  Every iteration
either removes one node (merge) or moves past one node (advance), so the
loop runs for at most the initial list length; `fuel` makes that measure
explicit (and keeps the definition kernel-reducible). -/
def mergeLoop : Nat → List AtlasNode → List AtlasNode
  | 0, ns => ns
  | _, [] => []
  | _, [n] => [n]
  | fuel + 1, a :: b :: rest =>
    if a.y = b.y then mergeLoop fuel (⟨a.x, a.y, wrap16 (a.width + b.width)⟩ :: rest)
    else a :: mergeLoop fuel (b :: rest)

def mergeNodes (ns : List AtlasNode) : List AtlasNode := mergeLoop ns.length ns

/-- `(*Atlas).addSkylineLevel` from atlas.go: insert the new node at `idx`
(with `y+h`), run the shadow-trimming loop, then the merge loop.  The Go
function always returns `true`. -/
def Atlas.addSkylineLevel (a : Atlas) (idx : Nat) (x y w h : Int) : Atlas :=
  let nn : AtlasNode := ⟨wrap16 x, wrap16 (y + h), wrap16 w⟩
  let trimmed := a.nodes.take idx ++ nn :: trimShadow (wrap16 (nn.x + nn.width)) (a.nodes.drop idx)
  { a with nodes := mergeNodes trimmed }

/-- The `for spaceLeft > 0` loop of `rectFits`: accumulate the max `y` of
the nodes under the candidate span, fail when the nodes run out
(`i == len(a.nodes)`) or the running height exceeds the atlas height. -/
def rectFitsLoop (height h : Int) : List AtlasNode → Int → Int → Option Int
  | [], y, spaceLeft => if spaceLeft > 0 then none else some y
  | n :: rest, y, spaceLeft =>
    if spaceLeft > 0 then
      let y1 := maxInt y n.y
      if y1 + h > height then none
      else rectFitsLoop height h rest y1 (spaceLeft - n.width)
    else some y

/-- `(*Atlas).rectFits` from atlas.go.  `none` plays the role of the `-1`
sentinel.  (Go indexes `a.nodes[i]` unconditionally; `addRect` only calls
it with `i < len(a.nodes)`, which is the `n :: rest` case.) -/
def Atlas.rectFits (a : Atlas) (i : Nat) (w h : Int) : Option Int :=
  match a.nodes.drop i with
  | [] => none
  | n :: rest =>
    if n.x + w > a.width then none
    else rectFitsLoop a.height h (n :: rest) n.y w

/-- The "bottom left fit heuristic" loop of `addRect`: scan every node
index, keeping the candidate minimizing `y+rh`, tie-broken by the node's
width.  The accumulator `(besth, bestw, best)` starts at
`(a.height, a.width, none)`; `best` carries `(besti, bestx, besty)`. -/
def bestFitAux (a : Atlas) (rw rh : Int) :
    List AtlasNode → Nat → Int → Int → Option (Nat × Int × Int) → Option (Nat × Int × Int)
  | [], _, _, _, best => best
  | n :: rest, i, besth, bestw, best =>
    match a.rectFits i rw rh with
    | some y =>
      if y + rh < besth ∨ (y + rh = besth ∧ n.width < bestw) then
        bestFitAux a rw rh rest (i + 1) (y + rh) n.width (some (i, n.x, y))
      else bestFitAux a rw rh rest (i + 1) besth bestw best
    | none => bestFitAux a rw rh rest (i + 1) besth bestw best

/-- `(*Atlas).addRect` from atlas.go.  Returns the placement `(rx, ry)`
and the updated atlas, or `none` for "full".  (`addSkylineLevel` always
succeeds in the source, so its `bool` result is not modelled.) -/
def Atlas.addRect (a : Atlas) (rw rh : Int) : Option (Int × Int × Atlas) :=
  match bestFitAux a rw rh a.nodes 0 a.height a.width none with
  | none => none
  | some (besti, bestx, besty) =>
    some (bestx, besty, a.addSkylineLevel besti bestx besty rw rh)

/-! ### The skyline invariant -/

/-- `coverTo H p q ns`: the segments `ns` tile the interval `[p, q)`
contiguously (each node starts where the previous one ended), with
nonnegative widths and heights between `0` and `H`. -/
def coverTo (H : Int) : Int → Int → List AtlasNode → Prop
  | p, q, [] => p = q
  | p, q, n :: rest =>
    n.x = p ∧ 0 ≤ n.width ∧ 0 ≤ n.y ∧ n.y ≤ H ∧ coverTo H (p + n.width) q rest

/-- The allocator invariant: bounded dimensions (so that the `int16`
fields never wrap) and a contiguous skyline tiling `[0, width)`. -/
def Atlas.Inv (a : Atlas) : Prop :=
  0 ≤ a.width ∧ a.width ≤ 32767 ∧ 0 ≤ a.height ∧ a.height ≤ 32767 ∧
  coverTo a.height 0 a.width a.nodes

/-- The skyline height over column `c`: the `y` of the first node whose
right edge lies beyond `c`. -/
def heightAt : List AtlasNode → Int → Int
  | [], _ => 0
  | n :: rest, c => if c < n.x + n.width then n.y else heightAt rest c

theorem coverTo_le {H : Int} :
    ∀ {ns : List AtlasNode} {p q : Int}, coverTo H p q ns → p ≤ q
  | [], p, q, h => le_of_eq h
  | n :: rest, p, q, h => by
    obtain ⟨-, hw, -, -, hrest⟩ := h
    have := coverTo_le hrest
    omega

theorem coverTo_nil {H p q : Int} : coverTo H p q [] ↔ p = q := Iff.rfl

theorem coverTo_cons {H p q : Int} {n : AtlasNode} {rest : List AtlasNode} :
    coverTo H p q (n :: rest) ↔
      n.x = p ∧ 0 ≤ n.width ∧ 0 ≤ n.y ∧ n.y ≤ H ∧ coverTo H (p + n.width) q rest :=
  Iff.rfl

theorem coverTo_append {H : Int} {ys : List AtlasNode} :
    ∀ {xs : List AtlasNode} {p r : Int},
      coverTo H p r (xs ++ ys) ↔ ∃ q, coverTo H p q xs ∧ coverTo H q r ys := by
  intro xs
  induction xs with
  | nil =>
    intro p r
    constructor
    · intro h; exact ⟨p, rfl, h⟩
    · rintro ⟨q, hq, h⟩
      rw [coverTo_nil] at hq
      subst hq; exact h
  | cons n rest ih =>
    intro p r
    rw [List.cons_append, coverTo_cons]
    constructor
    · rintro ⟨hx, hw, hy0, hy1, h⟩
      obtain ⟨q, h1, h2⟩ := ih.mp h
      exact ⟨q, ⟨hx, hw, hy0, hy1, h1⟩, h2⟩
    · rintro ⟨q, hq, h2⟩
      rw [coverTo_cons] at hq
      obtain ⟨hx, hw, hy0, hy1, h1⟩ := hq
      exact ⟨hx, hw, hy0, hy1, ih.mpr ⟨q, h1, h2⟩⟩

theorem coverTo_mono_H {H H' : Int} (hH : H ≤ H') :
    ∀ {ns : List AtlasNode} {p q : Int}, coverTo H p q ns → coverTo H' p q ns
  | [], p, q, h => h
  | n :: rest, p, q, h => by
    obtain ⟨hx, hw, hy0, hy1, hrest⟩ := h
    exact ⟨hx, hw, hy0, by omega, coverTo_mono_H hH hrest⟩

theorem heightAt_append_right {H : Int} :
    ∀ {xs : List AtlasNode} {p q : Int} (ys : List AtlasNode) {c : Int},
      coverTo H p q xs → q ≤ c → heightAt (xs ++ ys) c = heightAt ys c
  | [], p, q, ys, c, _, _ => rfl
  | n :: rest, p, q, ys, c, h, hc => by
    obtain ⟨hx, hw, hy0, hy1, hrest⟩ := h
    have hle := coverTo_le hrest
    have : ¬ c < n.x + n.width := by omega
    simp only [List.cons_append, heightAt, if_neg this]
    exact heightAt_append_right ys hrest hc

theorem heightAt_append_left {H : Int} :
    ∀ {xs : List AtlasNode} {p q : Int} (ys : List AtlasNode) {c : Int},
      coverTo H p q xs → p ≤ c → c < q → heightAt (xs ++ ys) c = heightAt xs c
  | [], p, q, ys, c, h, hc1, hc2 => by simp [coverTo] at h; omega
  | n :: rest, p, q, ys, c, h, hc1, hc2 => by
    obtain ⟨hx, hw, hy0, hy1, hrest⟩ := h
    by_cases hcn : c < n.x + n.width
    · simp only [List.cons_append, heightAt, if_pos hcn]
    · simp only [List.cons_append, heightAt, if_neg hcn]
      exact heightAt_append_left ys hrest (by omega) hc2

theorem heightAt_bounds {H : Int} :
    ∀ {ns : List AtlasNode} {p q : Int} {c : Int},
      coverTo H p q ns → p ≤ c → c < q →
      0 ≤ heightAt ns c ∧ heightAt ns c ≤ H
  | [], p, q, c, h, hc1, hc2 => by simp [coverTo] at h; omega
  | n :: rest, p, q, c, h, hc1, hc2 => by
    obtain ⟨hx, hw, hy0, hy1, hrest⟩ := h
    by_cases hcn : c < n.x + n.width
    · simp only [heightAt, if_pos hcn]; exact ⟨hy0, hy1⟩
    · simp only [heightAt, if_neg hcn]
      exact heightAt_bounds hrest (by omega) hc2

/-- Effect of the shadow-trimming loop: the trimmed suffix tiles `[e, q)`
and the skyline is unchanged at and beyond `e`. -/
theorem trimShadow_spec {H : Int} :
    ∀ {ns : List AtlasNode} {p q e : Int},
      0 ≤ p → p ≤ e → e ≤ q → q ≤ 32767 → coverTo H p q ns →
      coverTo H e q (trimShadow e ns) ∧
      ∀ c, e ≤ c → heightAt (trimShadow e ns) c = heightAt ns c := by
  intro ns
  induction ns with
  | nil =>
    intro p q e hp hpe heq hq h
    simp [coverTo] at h
    subst h
    have : e = p := le_antisymm heq hpe
    subst this
    exact ⟨rfl, fun c _ => rfl⟩
  | cons n rest ih =>
    intro p q e hp hpe heq hq h
    rw [coverTo_cons] at h
    obtain ⟨hx, hw, hy0, hy1, hrest⟩ := h
    have hq' := coverTo_le hrest
    by_cases hlt : n.x < e
    · have hshrink : wrap16 (e - n.x) = e - n.x := wrap16_eq (by omega) (by omega)
      have hww : wrap16 (n.width - (e - n.x)) = n.width - (e - n.x) :=
        wrap16_eq (by omega) (by omega)
      have hunfold : trimShadow e (n :: rest) =
          if n.width - (e - n.x) ≤ 0 then trimShadow e rest
          else ⟨wrap16 (n.x + (e - n.x)), n.y, n.width - (e - n.x)⟩ :: rest := by
        simp only [trimShadow, if_pos hlt, hshrink, hww]
      by_cases hz : n.width - (e - n.x) ≤ 0
      · -- node fully shadowed: removed
        rw [hunfold, if_pos hz]
        have heq2 : p + n.width ≤ e := by omega
        have := ih (p := p + n.width) (q := q) (e := e) (by omega) heq2 heq hq hrest
        refine ⟨this.1, ?_⟩
        intro c hc
        rw [this.2 c hc]
        have : ¬ c < n.x + n.width := by omega
        simp [heightAt, this]
      · -- node partially shadowed: trimmed on the left
        rw [hunfold, if_neg hz]
        have hxs : wrap16 (n.x + (e - n.x)) = e := by
          have h1 : n.x + (e - n.x) = e := by omega
          rw [h1]; exact wrap16_eq (by omega) (by omega)
        rw [hxs]
        refine ⟨?_, ?_⟩
        · rw [coverTo_cons]
          dsimp only
          refine ⟨rfl, by omega, hy0, hy1, ?_⟩
          have h2 : e + (n.width - (e - n.x)) = p + n.width := by omega
          rw [h2]; exact hrest
        · intro c hc
          simp only [heightAt]
          have hiff : (c < e + (n.width - (e - n.x))) ↔ (c < n.x + n.width) := by omega
          by_cases hcn : c < n.x + n.width
          · simp [hiff, hcn]
          · simp [hiff, hcn]
    · -- node already past the shadow: loop breaks, list unchanged
      have hpe2 : n.x = e := by omega
      have htr : trimShadow e (n :: rest) = n :: rest := by
        simp only [trimShadow, if_neg hlt]
      rw [htr]
      refine ⟨?_, fun c _ => rfl⟩
      rw [coverTo_cons]
      have hrest' : coverTo H (e + n.width) q rest := by
        have : e + n.width = p + n.width := by omega
        rw [this]; exact hrest
      exact ⟨hpe2, hw, hy0, hy1, hrest'⟩

/-- Effect of the merge loop (with enough fuel): tiling preserved, skyline
pointwise unchanged. -/
theorem mergeLoop_spec {H : Int} :
    ∀ (fuel : Nat) {ns : List AtlasNode} {p q : Int},
      ns.length ≤ fuel →
      0 ≤ p → q ≤ 32767 → coverTo H p q ns →
      coverTo H p q (mergeLoop fuel ns) ∧
      ∀ c, heightAt (mergeLoop fuel ns) c = heightAt ns c := by
  intro fuel
  induction fuel with
  | zero =>
    intro ns p q hlen _ _ h
    have : ns = [] := List.length_eq_zero.mp (Nat.le_zero.mp hlen)
    subst this
    exact ⟨h, fun c => rfl⟩
  | succ fuel ih =>
    intro ns p q hlen hp hq h
    match ns with
    | [] => exact ⟨h, fun c => rfl⟩
    | [n] => exact ⟨h, fun c => rfl⟩
    | a :: b :: rest =>
      rw [coverTo_cons] at h
      obtain ⟨hxa, hwa, hya0, hya1, h⟩ := h
      rw [coverTo_cons] at h
      obtain ⟨hxb, hwb, hyb0, hyb1, hrest⟩ := h
      have hle := coverTo_le hrest
      have hww : wrap16 (a.width + b.width) = a.width + b.width :=
        wrap16_eq (by omega) (by omega)
      by_cases heq : a.y = b.y
      · have hcov : coverTo H p q (⟨a.x, a.y, wrap16 (a.width + b.width)⟩ :: rest) := by
          rw [coverTo_cons]
          dsimp only
          refine ⟨hxa, by rw [hww]; omega, hya0, hya1, ?_⟩
          rw [hww]
          have h2 : p + (a.width + b.width) = p + a.width + b.width := by omega
          rw [h2]; exact hrest
        have hlen' : (⟨a.x, a.y, wrap16 (a.width + b.width)⟩ :: rest).length ≤ fuel := by
          simp at hlen ⊢; omega
        have hmain := ih hlen' hp hq hcov
        rw [show mergeLoop (fuel + 1) (a :: b :: rest) =
          mergeLoop fuel (⟨a.x, a.y, wrap16 (a.width + b.width)⟩ :: rest) by
            simp [mergeLoop, heq]]
        refine ⟨hmain.1, ?_⟩
        intro c
        rw [hmain.2 c]
        simp only [heightAt]
        rw [hww]
        by_cases hc1 : c < a.x + a.width
        · have h3 : c < a.x + (a.width + b.width) := by omega
          simp [h3, hc1]
        · by_cases hc2 : c < b.x + b.width
          · have h3 : c < a.x + (a.width + b.width) := by omega
            simp [h3, hc1, hc2, heq]
          · have h3 : ¬ c < a.x + (a.width + b.width) := by omega
            simp [h3, hc1, hc2]
      · have hb : coverTo H (p + a.width) q (b :: rest) := by
          rw [coverTo_cons]
          exact ⟨hxb, hwb, hyb0, hyb1, hrest⟩
        have hlen' : (b :: rest).length ≤ fuel := by simp at hlen ⊢; omega
        have hmain := ih (p := p + a.width) hlen' (by omega) hq hb
        rw [show mergeLoop (fuel + 1) (a :: b :: rest) = a :: mergeLoop fuel (b :: rest) by
          simp [mergeLoop, heq]]
        refine ⟨?_, ?_⟩
        · rw [coverTo_cons]
          exact ⟨hxa, hwa, hya0, hya1, hmain.1⟩
        · intro c
          simp only [heightAt]
          by_cases hc : c < a.x + a.width
          · simp [hc]
          · simp [hc, hmain.2 c, heightAt]

/-- Effect of the merge pass: tiling preserved, skyline pointwise
unchanged. -/
theorem mergeNodes_spec {H : Int} :
    ∀ {ns : List AtlasNode} {p q : Int},
      0 ≤ p → q ≤ 32767 → coverTo H p q ns →
      coverTo H p q (mergeNodes ns) ∧
      ∀ c, heightAt (mergeNodes ns) c = heightAt ns c := by
  intro ns p q hp hq h
  exact mergeLoop_spec ns.length (le_refl _) hp hq h

/-! ### Specification of `rectFits` and `addRect` -/

theorem rectFitsLoop_nonpos {height h : Int} {ns : List AtlasNode} {y sl : Int}
    (hsl : ¬ sl > 0) : rectFitsLoop height h ns y sl = some y := by
  cases ns <;> simp [rectFitsLoop, hsl]

/-- What a successful `rectFits` loop guarantees: the result dominates the
starting `y`, dominates the skyline over the candidate span, and (when the
span is nonempty) leaves room below the atlas height. -/
theorem rectFitsLoop_spec {H hh : Int} :
    ∀ {ns : List AtlasNode} {p q y sl yr : Int},
      coverTo H p q ns →
      rectFitsLoop H hh ns y sl = some yr →
      y ≤ yr ∧ (∀ c, p ≤ c → c < p + sl → heightAt ns c ≤ yr) ∧
      (0 < sl → yr + hh ≤ H) := by
  intro ns
  induction ns with
  | nil =>
    intro p q y sl yr hcov hrun
    by_cases hsl : sl > 0
    · simp [rectFitsLoop, hsl] at hrun
    · rw [rectFitsLoop_nonpos hsl] at hrun
      injection hrun with hyr
      subst hyr
      exact ⟨le_refl _, fun c hc1 hc2 => by omega, fun h => by omega⟩
  | cons n rest ih =>
    intro p q y sl yr hcov hrun
    rw [coverTo_cons] at hcov
    obtain ⟨hx, hw, hy0, hy1, hrest⟩ := hcov
    by_cases hsl : sl > 0
    · simp only [rectFitsLoop, if_pos hsl] at hrun
      by_cases hover : maxInt y n.y + hh > H
      · simp [hover] at hrun
      · rw [if_neg hover] at hrun
        obtain ⟨h1, h2, h3⟩ := ih hrest hrun
        have hmax1 : y ≤ maxInt y n.y := by rw [maxInt_eq]; exact le_max_left _ _
        have hmax2 : n.y ≤ maxInt y n.y := by rw [maxInt_eq]; exact le_max_right _ _
        refine ⟨le_trans hmax1 h1, ?_, fun _ => ?_⟩
        · intro c hc1 hc2
          by_cases hcn : c < n.x + n.width
          · simp only [heightAt, if_pos hcn]
            omega
          · simp only [heightAt, if_neg hcn]
            exact h2 c (by omega) (by omega)
        · by_cases hsl' : 0 < sl - n.width
          · exact h3 hsl'
          · rw [rectFitsLoop_nonpos (by omega)] at hrun
            injection hrun with hyr
            omega
    · rw [rectFitsLoop_nonpos hsl] at hrun
      injection hrun with hyr
      subst hyr
      exact ⟨le_refl _, fun c hc1 hc2 => by omega, fun h => by omega⟩

/-- What a successful `rectFits` call guarantees about the atlas and about
the candidate placement `(n.x, y)`, where `n` is the `i`-th node. -/
theorem rectFits_spec {a : Atlas} {i : Nat} {w h y : Int}
    (hInv : a.Inv) (hw : 0 < w) (hfit : a.rectFits i w h = some y) :
    ∃ n rest, a.nodes.drop i = n :: rest ∧
      coverTo a.height 0 n.x (a.nodes.take i) ∧
      coverTo a.height n.x a.width (a.nodes.drop i) ∧
      0 ≤ n.x ∧ n.x + w ≤ a.width ∧
      0 ≤ y ∧ y + h ≤ a.height ∧
      (∀ c, n.x ≤ c → c < n.x + w → heightAt a.nodes c ≤ y) := by
  obtain ⟨hW0, hW1, hH0, hH1, hcov⟩ := hInv
  unfold Atlas.rectFits at hfit
  obtain ⟨n, rest, hdrop⟩ : ∃ n rest, a.nodes.drop i = n :: rest := by
    cases hd : a.nodes.drop i with
    | nil => rw [hd] at hfit; simp at hfit
    | cons n rest => exact ⟨n, rest, rfl⟩
  rw [hdrop] at hfit
  dsimp only at hfit
  by_cases hwide : n.x + w > a.width
  · rw [if_pos hwide] at hfit; exact absurd hfit (by simp)
  · rw [if_neg hwide] at hfit
    have hsplit : coverTo a.height 0 a.width (a.nodes.take i ++ a.nodes.drop i) := by
      rw [List.take_append_drop]; exact hcov
    obtain ⟨qq, htake, hdropcov⟩ := coverTo_append.mp hsplit
    rw [hdrop] at hdropcov
    have hxq : n.x = qq := (coverTo_cons.mp hdropcov).1
    subst hxq
    obtain ⟨hle, hspan, hroom⟩ := rectFitsLoop_spec hdropcov hfit
    have hny0 : 0 ≤ n.y := (coverTo_cons.mp hdropcov).2.2.1
    rw [← hdrop] at hdropcov
    refine ⟨n, rest, hdrop, htake, hdropcov, coverTo_le htake, by omega,
      by omega, hroom hw, ?_⟩
    intro c hc1 hc2
    have hrw : a.nodes = a.nodes.take i ++ a.nodes.drop i := (List.take_append_drop _ _).symm
    rw [hrw, heightAt_append_right _ htake hc1, hdrop]
    exact hspan c hc1 hc2

/-- The best-fit scan only ever returns a candidate that was produced by a
successful `rectFits` at its own index, carrying that node's `x`. -/
theorem bestFitAux_some {a : Atlas} {rw rh : Int} :
    ∀ (ns : List AtlasNode) (i : Nat) (bh bw : Int)
      (acc : Option (Nat × Int × Int)) (res : Nat × Int × Int),
      a.nodes.drop i = ns →
      (∀ t : Nat × Int × Int, acc = some t →
        a.rectFits t.1 rw rh = some t.2.2 ∧
        ∃ m rest, a.nodes.drop t.1 = m :: rest ∧ m.x = t.2.1) →
      bestFitAux a rw rh ns i bh bw acc = some res →
      a.rectFits res.1 rw rh = some res.2.2 ∧
      ∃ m rest, a.nodes.drop res.1 = m :: rest ∧ m.x = res.2.1 := by
  intro ns
  induction ns with
  | nil =>
    intro i bh bw acc res _ hacc hrun
    exact hacc res hrun
  | cons n rest ih =>
    intro i bh bw acc res hdrop hacc hrun
    have hdrop' : a.nodes.drop (i + 1) = rest := by
      have h1 : a.nodes.drop (i + 1) = (a.nodes.drop i).drop 1 := by
        rw [List.drop_drop]
      rw [h1, hdrop]
      rfl
    cases hfit : a.rectFits i rw rh with
    | some y =>
      simp only [bestFitAux, hfit] at hrun
      by_cases hcond : y + rh < bh ∨ (y + rh = bh ∧ n.width < bw)
      · rw [if_pos hcond] at hrun
        refine ih (i + 1) _ _ _ res hdrop' ?_ hrun
        intro t ht
        injection ht with ht
        subst ht
        exact ⟨hfit, n, rest, hdrop, rfl⟩
      · rw [if_neg hcond] at hrun
        exact ih (i + 1) _ _ _ res hdrop' hacc hrun
    | none =>
      simp only [bestFitAux, hfit] at hrun
      exact ih (i + 1) _ _ _ res hdrop' hacc hrun

/-- The central specification of `addRect`: a successful placement
preserves the invariant and the dimensions, lies inside the atlas, sits on
top of the old skyline over its span (which it raises to exactly its own
top edge), and never lowers the skyline anywhere. -/
theorem addRect_spec {a : Atlas} {rw rh x y : Int} {a' : Atlas}
    (hInv : a.Inv) (hrw : 0 < rw) (hrh : 0 < rh)
    (h : a.addRect rw rh = some (x, y, a')) :
    a'.Inv ∧ a'.width = a.width ∧ a'.height = a.height ∧
    0 ≤ x ∧ x + rw ≤ a.width ∧ 0 ≤ y ∧ y + rh ≤ a.height ∧
    (∀ c, x ≤ c → c < x + rw → heightAt a.nodes c ≤ y) ∧
    (∀ c, x ≤ c → c < x + rw → heightAt a'.nodes c = y + rh) ∧
    (∀ c, 0 ≤ c → c < a.width → heightAt a.nodes c ≤ heightAt a'.nodes c) := by
  obtain ⟨hW0, hW1, hH0, hH1, hcov⟩ := hInv
  unfold Atlas.addRect at h
  cases hbf : bestFitAux a rw rh a.nodes 0 a.height a.width none with
  | none => rw [hbf] at h; exact absurd h (by simp)
  | some res =>
    obtain ⟨bi, bx, by'⟩ := res
    rw [hbf] at h
    dsimp only at h
    obtain ⟨h1, h2, h3⟩ : bx = x ∧ by' = y ∧ a.addSkylineLevel bi bx by' rw rh = a' := by
      simpa [Prod.ext_iff] using h
    subst h1; subst h2
    obtain ⟨hfit, m, mrest, hmdrop, hmx⟩ :=
      bestFitAux_some a.nodes 0 a.height a.width none (bi, bx, by')
        (by simp) (by intro t ht; exact absurd ht (by simp)) hbf
    dsimp only at hfit hmdrop hmx
    obtain ⟨n, rest, hdrop, htake, hdropcov, hnx0, hnxw, hy0, hyh,
      hspanle⟩ := rectFits_spec ⟨hW0, hW1, hH0, hH1, hcov⟩ hrw hfit
    -- the head found by the scan and the head seen by rectFits coincide
    rw [hdrop] at hmdrop
    injection hmdrop with hmn _
    subst hmn
    have hxbx : n.x = bx := hmx
    -- now analyse addSkylineLevel bi bx by' rw rh
    have hbx0 : 0 ≤ bx := by omega
    have hbxw : bx + rw ≤ a.width := by omega
    have hwbx : wrap16 bx = bx := wrap16_eq (by omega) (by omega)
    have hwy : wrap16 (by' + rh) = by' + rh := wrap16_eq (by omega) (by omega)
    have hwrw : wrap16 rw = rw := wrap16_eq (by omega) (by omega)
    have hwe : wrap16 (bx + rw) = bx + rw := wrap16_eq (by omega) (by omega)
    have hnodes : a'.nodes = mergeNodes (a.nodes.take bi ++
        (⟨bx, by' + rh, rw⟩ : AtlasNode) ::
        trimShadow (bx + rw) (a.nodes.drop bi)) := by
      rw [← h3]
      unfold Atlas.addSkylineLevel
      dsimp only
      rw [hwbx, hwy, hwrw, hwe]
    have hwh : a'.width = a.width ∧ a'.height = a.height := by
      rw [← h3]; unfold Atlas.addSkylineLevel; exact ⟨rfl, rfl⟩
    rw [hxbx] at htake hdropcov hspanle
    obtain ⟨htrim, htrimh⟩ := trimShadow_spec (p := bx) (q := a.width)
      (e := bx + rw) hbx0 (by omega) hbxw (by omega) hdropcov
    have hLcov : coverTo a.height 0 a.width (a.nodes.take bi ++
        (⟨bx, by' + rh, rw⟩ : AtlasNode) ::
        trimShadow (bx + rw) (a.nodes.drop bi)) := by
      refine coverTo_append.mpr ⟨bx, htake, ?_⟩
      rw [coverTo_cons]
      dsimp only
      exact ⟨rfl, by omega, by omega, by omega, htrim⟩
    obtain ⟨hmcov, hmh⟩ := mergeNodes_spec (le_refl 0) hW1 hLcov
    have hInv' : a'.Inv := by
      unfold Atlas.Inv
      rw [hwh.1, hwh.2, hnodes]
      exact ⟨hW0, hW1, hH0, hH1, hmcov⟩
    have hnew : ∀ c, bx ≤ c → c < bx + rw → heightAt a'.nodes c = by' + rh := by
      intro c hc1 hc2
      rw [hnodes, hmh c, heightAt_append_right _ htake hc1]
      simp only [heightAt]
      rw [if_pos (by omega)]
    have hold : ∀ c, 0 ≤ c → c < a.width →
        (c < bx ∨ bx + rw ≤ c) → heightAt a'.nodes c = heightAt a.nodes c := by
      intro c hc0 hcW hside
      have hrwn : a.nodes = a.nodes.take bi ++ a.nodes.drop bi :=
        (List.take_append_drop _ _).symm
      rcases hside with hlt | hge
      · rw [hnodes, hmh c, heightAt_append_left _ htake hc0 hlt]
        conv_rhs => rw [hrwn]
        rw [heightAt_append_left _ htake hc0 hlt]
      · rw [hnodes, hmh c, heightAt_append_right _ htake (by omega)]
        have hskip : heightAt ((⟨bx, by' + rh, rw⟩ : AtlasNode) ::
            trimShadow (bx + rw) (a.nodes.drop bi)) c =
            heightAt (trimShadow (bx + rw) (a.nodes.drop bi)) c := by
          simp only [heightAt]
          rw [if_neg (by omega)]
        rw [hskip, htrimh c hge]
        conv_rhs => rw [hrwn]
        rw [heightAt_append_right _ htake (by omega)]
    refine ⟨hInv', hwh.1, hwh.2, by omega, by omega, by omega, by omega,
      hspanle, hnew, ?_⟩
    intro c hc0 hcW
    by_cases hin : bx ≤ c ∧ c < bx + rw
    · rw [hnew c hin.1 hin.2]
      have := hspanle c hin.1 hin.2
      omega
    · rw [hold c hc0 hcW (by omega)]

/-! ### Invariant after each allocator operation -/

theorem newAtlas_Inv {w h : Int} (hw0 : 0 ≤ w) (hw1 : w ≤ 32767)
    (hh0 : 0 ≤ h) (hh1 : h ≤ 32767) : (newAtlas w h).Inv := by
  have hww : wrap16 w = w := wrap16_eq (by omega) (by omega)
  refine ⟨hw0, hw1, hh0, hh1, ?_⟩
  show coverTo h 0 w [⟨0, 0, wrap16 w⟩]
  rw [coverTo_cons]
  dsimp only
  rw [hww]
  exact ⟨rfl, hw0, le_refl 0, hh0, by rw [coverTo_nil]; omega⟩

theorem reset_eq_newAtlas (a : Atlas) (w h : Int) : a.reset w h = newAtlas w h := rfl

theorem expand_Inv {a : Atlas} (hInv : a.Inv) {w h : Int}
    (hw : a.width ≤ w) (hw1 : w ≤ 32767) (hh : a.height ≤ h) (hh1 : h ≤ 32767) :
    (a.expand w h).Inv := by
  obtain ⟨hW0, hW1, hH0, hH1, hcov⟩ := hInv
  have hWe : (a.expand w h).width = w := rfl
  have hHe : (a.expand w h).height = h := rfl
  by_cases hgt : w > a.width
  · have h1 : (a.expand w h).nodes = a.nodes ++
        [⟨wrap16 a.width, wrap16 0, wrap16 (w - a.width)⟩] := by
      unfold Atlas.expand Atlas.insertNode
      rw [if_pos hgt]
      dsimp only
      rw [List.take_length, List.drop_length]
    refine ⟨by rw [hWe]; omega, by rw [hWe]; exact hw1,
      by rw [hHe]; omega, by rw [hHe]; exact hh1, ?_⟩
    show coverTo h 0 w (a.expand w h).nodes
    rw [h1, wrap16_eq (n := a.width) (by omega) (by omega),
      wrap16_eq (n := (0 : Int)) (by omega) (by omega),
      wrap16_eq (n := w - a.width) (by omega) (by omega)]
    refine coverTo_append.mpr ⟨a.width, coverTo_mono_H hh hcov, ?_⟩
    rw [coverTo_cons]
    dsimp only
    exact ⟨rfl, by omega, le_refl 0, by omega, by rw [coverTo_nil]; omega⟩
  · have hweq : w = a.width := by omega
    have h1 : (a.expand w h).nodes = a.nodes := by
      unfold Atlas.expand
      rw [if_neg hgt]
    refine ⟨by rw [hWe]; omega, by rw [hWe]; exact hw1,
      by rw [hHe]; omega, by rw [hHe]; exact hh1, ?_⟩
    show coverTo h 0 w (a.expand w h).nodes
    rw [h1, hweq]
    exact coverTo_mono_H hh hcov

/-- The allocator states reachable by the repository's own use of the
atlas: creation, successful `addRect` placements of rectangles with
positive dimensions, monotone `expand` (as guaranteed by `ExpandAtlas`,
which maxes the new dimensions with the old ones), and `reset`. -/
inductive Reached : Atlas → Prop
  | new (w h : Int) : 0 ≤ w → w ≤ 32767 → 0 ≤ h → h ≤ 32767 →
      Reached (newAtlas w h)
  | add (a : Atlas) (rw rh x y : Int) (a' : Atlas) : Reached a →
      0 < rw → 0 < rh → a.addRect rw rh = some (x, y, a') → Reached a'
  | expand (a : Atlas) (w h : Int) : Reached a →
      a.width ≤ w → w ≤ 32767 → a.height ≤ h → h ≤ 32767 →
      Reached (a.expand w h)
  | reset (a : Atlas) (w h : Int) : Reached a →
      0 ≤ w → w ≤ 32767 → 0 ≤ h → h ≤ 32767 → Reached (a.reset w h)

theorem Reached.inv {a : Atlas} (h : Reached a) : a.Inv := by
  induction h with
  | new w h hw0 hw1 hh0 hh1 => exact newAtlas_Inv hw0 hw1 hh0 hh1
  | add a rw rh x y a' _ hrw hrh hadd ih => exact (addRect_spec ih hrw hrh hadd).1
  | expand a w h _ hw hw1 hh hh1 ih => exact expand_Inv ih hw hw1 hh hh1
  | reset a w h _ hw0 hw1 hh0 hh1 ih =>
    rw [reset_eq_newAtlas]; exact newAtlas_Inv hw0 hw1 hh0 hh1

/-! ### Well-formedness of the segment list (claim C2) -/

/-- The spec's segment-list invariant: sorted by `x`, pairwise
non-overlapping spans, and every column of `[0, W)` covered by exactly one
segment. -/
def segsWF (W : Int) (ns : List AtlasNode) : Prop :=
  ns.Chain' (fun m n => m.x ≤ n.x) ∧
  ns.Pairwise (fun m n => m.x + m.width ≤ n.x ∨ n.x + n.width ≤ m.x) ∧
  ∀ c : Int, 0 ≤ c → c < W →
    ns.countP (fun n => decide (n.x ≤ c ∧ c < n.x + n.width)) = 1

theorem coverTo_between {H : Int} :
    ∀ {ns : List AtlasNode} {p q : Int}, coverTo H p q ns →
      ∀ n ∈ ns, p ≤ n.x ∧ n.x + n.width ≤ q
  | [], p, q, _, n, hn => absurd hn (List.not_mem_nil n)
  | m :: rest, p, q, h, n, hn => by
    rw [coverTo_cons] at h
    obtain ⟨hx, hw, -, -, hrest⟩ := h
    rcases List.mem_cons.mp hn with h1 | h1
    · subst h1
      have := coverTo_le hrest
      omega
    · have := coverTo_between hrest n h1
      omega

theorem coverTo_chain' {H : Int} :
    ∀ {ns : List AtlasNode} {p q : Int}, coverTo H p q ns →
      ns.Chain' (fun m n => m.x ≤ n.x)
  | [], _, _, _ => List.chain'_nil
  | m :: rest, p, q, h => by
    rw [coverTo_cons] at h
    obtain ⟨hx, hw, -, -, hrest⟩ := h
    rw [List.chain'_cons']
    refine ⟨?_, coverTo_chain' hrest⟩
    intro b hb
    cases rest with
    | nil => simp at hb
    | cons b' rest' =>
      simp at hb
      subst hb
      have := (coverTo_cons.mp hrest).1
      omega

theorem coverTo_pairwise {H : Int} :
    ∀ {ns : List AtlasNode} {p q : Int}, coverTo H p q ns →
      ns.Pairwise (fun m n => m.x + m.width ≤ n.x ∨ n.x + n.width ≤ m.x)
  | [], _, _, _ => List.Pairwise.nil
  | m :: rest, p, q, h => by
    rw [coverTo_cons] at h
    obtain ⟨hx, hw, -, -, hrest⟩ := h
    refine List.Pairwise.cons ?_ (coverTo_pairwise hrest)
    intro n hn
    have := (coverTo_between hrest n hn).1
    omega

theorem coverTo_countP_lt {H : Int} {c : Int} :
    ∀ {ns : List AtlasNode} {p q : Int}, coverTo H p q ns → c < p →
      ns.countP (fun n => decide (n.x ≤ c ∧ c < n.x + n.width)) = 0
  | [], _, _, _, _ => rfl
  | m :: rest, p, q, h, hc => by
    rw [coverTo_cons] at h
    obtain ⟨hx, hw, -, -, hrest⟩ := h
    rw [List.countP_cons]
    have h1 : ¬ (m.x ≤ c ∧ c < m.x + m.width) := by omega
    have h2 := coverTo_countP_lt (c := c) hrest (by omega)
    rw [h2]
    simp [h1]

theorem coverTo_countP_one {H : Int} {c : Int} :
    ∀ {ns : List AtlasNode} {p q : Int}, coverTo H p q ns → p ≤ c → c < q →
      ns.countP (fun n => decide (n.x ≤ c ∧ c < n.x + n.width)) = 1
  | [], p, q, h, hc1, hc2 => by rw [coverTo_nil] at h; omega
  | m :: rest, p, q, h, hc1, hc2 => by
    rw [coverTo_cons] at h
    obtain ⟨hx, hw, -, -, hrest⟩ := h
    rw [List.countP_cons]
    by_cases hin : c < m.x + m.width
    · have h1 : (m.x ≤ c ∧ c < m.x + m.width) := by omega
      have h2 := coverTo_countP_lt (c := c) hrest (by omega)
      rw [h2]
      simp [h1]
    · have h1 : ¬ (m.x ≤ c ∧ c < m.x + m.width) := by omega
      have h2 := coverTo_countP_one (c := c) hrest (by omega) hc2
      rw [h2]
      simp [h1]

/-- **C2.** The skyline segment list satisfies, after every allocator
operation (`newAtlas`, `addRect`/`addSkylineLevel`, `expand`, `reset`),
the invariant that segments are sorted by `x`, non-overlapping, and cover
`x ∈ [0, atlas_width)` exactly once with no gaps. -/
theorem C2_skyline_segments_wellformed {a : Atlas} (h : Reached a) :
    segsWF a.width a.nodes := by
  obtain ⟨-, -, -, -, hcov⟩ := h.inv
  exact ⟨coverTo_chain' hcov, coverTo_pairwise hcov,
    fun c hc0 hcW => coverTo_countP_one hcov hc0 hcW⟩

theorem C2_skyline_segments_wellformed_witness :
    segsWF (newAtlas 512 512).width (newAtlas 512 512).nodes :=
  C2_skyline_segments_wellformed
    (Reached.new 512 512 (by decide) (by decide) (by decide) (by decide))

/-! ### Non-overlap of the returned placements (claim C1) -/

/-- A placement returned by `addRect`, together with the requested
dimensions. -/
structure PlacedRect where
  x : Int
  y : Int
  w : Int
  h : Int
deriving Repr, DecidableEq

/-- An integer sample point of the half-open rectangle. -/
def PlacedRect.contains (r : PlacedRect) (cx cy : Int) : Prop :=
  r.x ≤ cx ∧ cx < r.x + r.w ∧ r.y ≤ cy ∧ cy < r.y + r.h

/-- Two placements overlap when they share a point.  (Placements are
axis-aligned rectangles with integer corners, so sharing interior area is
the same as sharing an integer sample point.) -/
def overlaps (r s : PlacedRect) : Prop :=
  ∃ cx cy, r.contains cx cy ∧ s.contains cx cy

def inBoundsRect (W H : Int) (r : PlacedRect) : Prop :=
  0 ≤ r.x ∧ r.x + r.w ≤ W ∧ 0 ≤ r.y ∧ r.y + r.h ≤ H

/-- The rectangle lies entirely below the skyline. -/
def belowSkyline (ns : List AtlasNode) (r : PlacedRect) : Prop :=
  ∀ c, r.x ≤ c → c < r.x + r.w → r.y + r.h ≤ heightAt ns c

/-- Run a sequence of `addRect` requests, collecting the placements;
`none` as soon as one request fails. -/
def runAddRects : Atlas → List (Int × Int) → Option (List PlacedRect × Atlas)
  | a, [] => some ([], a)
  | a, (w, h) :: rest =>
    match a.addRect w h with
    | none => none
    | some (x, y, a') =>
      match runAddRects a' rest with
      | none => none
      | some (rs, aF) => some (⟨x, y, w, h⟩ :: rs, aF)

/-- The inductive heart of C1: placements stay below the (monotonically
rising) skyline, which separates every pair of placements. -/
theorem runAddRects_spec :
    ∀ (reqs : List (Int × Int)) (a : Atlas) (prev placed : List PlacedRect)
      (aF : Atlas),
      a.Inv →
      (∀ r ∈ prev, inBoundsRect a.width a.height r) →
      (∀ r ∈ prev, belowSkyline a.nodes r) →
      (∀ t ∈ reqs, 0 < t.1 ∧ 0 < t.2) →
      runAddRects a reqs = some (placed, aF) →
      aF.Inv ∧ aF.width = a.width ∧ aF.height = a.height ∧
      (∀ r ∈ placed, inBoundsRect a.width a.height r) ∧
      (∀ r ∈ prev ++ placed, belowSkyline aF.nodes r) ∧
      (∀ r ∈ prev, ∀ s ∈ placed, ¬ overlaps r s) ∧
      placed.Pairwise (fun r s => ¬ overlaps r s) := by
  intro reqs
  induction reqs with
  | nil =>
    intro a prev placed aF hInv hprevB hprev hreq hrun
    simp only [runAddRects, Option.some.injEq, Prod.mk.injEq] at hrun
    obtain ⟨h1, h2⟩ := hrun
    subst h1; subst h2
    refine ⟨hInv, rfl, rfl, by simp, by simpa using hprev, by simp, by simp⟩
  | cons t rest ih =>
    obtain ⟨w, h⟩ := t
    intro a prev placed aF hInv hprevB hprev hreq hrun
    have hwh := hreq (w, h) (List.mem_cons_self _ _)
    simp only at hwh
    simp only [runAddRects] at hrun
    cases hadd : a.addRect w h with
    | none => rw [hadd] at hrun; simp at hrun
    | some res =>
      obtain ⟨x, y, a1⟩ := res
      rw [hadd] at hrun
      dsimp only at hrun
      cases hrest : runAddRects a1 rest with
      | none => rw [hrest] at hrun; simp at hrun
      | some pr =>
        obtain ⟨rs, aF'⟩ := pr
        rw [hrest] at hrun
        dsimp only at hrun
        obtain ⟨hp1, hp2⟩ : (⟨x, y, w, h⟩ : PlacedRect) :: rs = placed ∧ aF' = aF := by
          injection hrun with h'
          simpa [Prod.ext_iff] using h'
        subst hp2
        obtain ⟨hInv1, hw1, hh1, hx0, hxw, hy0, hyh, hspanle, hspan_new, hmono⟩ :=
          addRect_spec hInv hwh.1 hwh.2 hadd
        set r0 : PlacedRect := ⟨x, y, w, h⟩ with hr0
        have hr0B : inBoundsRect a.width a.height r0 := ⟨hx0, hxw, hy0, hyh⟩
        have hr0below : belowSkyline a1.nodes r0 := by
          intro c hc1 hc2
          rw [hspan_new c hc1 hc2]
        have hprevB1 : ∀ r ∈ prev ++ [r0], inBoundsRect a1.width a1.height r := by
          intro r hr
          rw [hw1, hh1]
          rcases List.mem_append.mp hr with h' | h'
          · exact hprevB r h'
          · rw [List.mem_singleton.mp h']; exact hr0B
        have hprev1 : ∀ r ∈ prev ++ [r0], belowSkyline a1.nodes r := by
          intro r hr
          rcases List.mem_append.mp hr with h' | h'
          · intro c hc1 hc2
            have hB := hprevB r h'
            refine le_trans (hprev r h' c hc1 hc2) (hmono c ?_ ?_)
            · unfold inBoundsRect at hB; omega
            · unfold inBoundsRect at hB; omega
          · rw [List.mem_singleton.mp h']; exact hr0below
        have hreq1 : ∀ t ∈ rest, 0 < t.1 ∧ 0 < t.2 := by
          intro t ht; exact hreq t (List.mem_cons_of_mem _ ht)
        obtain ⟨hFInv, hFw, hFh, hrsB, hFbelow, hsep, hpair⟩ :=
          ih a1 (prev ++ [r0]) rs aF' hInv1 hprevB1 hprev1 hreq1 hrest
        -- r0 does not overlap any rectangle already below the old skyline
        have hr0sep : ∀ r ∈ prev, ¬ overlaps r r0 := by
          intro r hr hov
          obtain ⟨cx, cy, hc1, hc2⟩ := hov
          obtain ⟨h1, h2, h3, h4⟩ := hc1
          obtain ⟨h5, h6, h7, h8⟩ := hc2
          simp only [hr0] at h5 h6 h7 h8
          have hbel := hprev r hr cx h1 h2
          have hle := hspanle cx h5 h6
          omega
        subst hp1
        refine ⟨hFInv, by rw [hFw, hw1], by rw [hFh, hh1], ?_, ?_, ?_, ?_⟩
        · intro r hr
          rcases List.mem_cons.mp hr with h' | h'
          · subst h'; exact hr0B
          · have := hrsB r h'
            rwa [hw1, hh1] at this
        · intro r hr
          rcases List.mem_append.mp hr with h' | h'
          · exact hFbelow r (List.mem_append_left _ (List.mem_append_left _ h'))
          · rcases List.mem_cons.mp h' with h'' | h''
            · rw [h'']
              exact hFbelow r0 (List.mem_append_left _
                (List.mem_append_right _ (List.mem_singleton_self _)))
            · exact hFbelow r (List.mem_append_right _ h'')
        · intro r hr s hs
          rcases List.mem_cons.mp hs with h' | h'
          · subst h'; exact hr0sep r hr
          · exact hsep r (List.mem_append_left _ hr) s h'
        · refine List.Pairwise.cons ?_ hpair
          intro s hs
          exact hsep r0 (List.mem_append_right _ (List.mem_singleton_self _)) s hs

/-- **C1.** For every sequence of `addRect(w,h)` calls on a fresh or
freshly reset atlas in which every call succeeds, the returned `(x,y)`
placements with their requested dimensions denote rectangles that pairwise
do not overlap and each lie entirely within the atlas's width and
height. -/
theorem C1_placements_disjoint_and_in_bounds
    (w h : Int) (a0 : Atlas) (reqs : List (Int × Int))
    (placed : List PlacedRect) (aF : Atlas)
    (hfresh : a0 = newAtlas w h ∨ ∃ b : Atlas, a0 = b.reset w h)
    (hw0 : 0 ≤ w) (hw1 : w ≤ 32767) (hh0 : 0 ≤ h) (hh1 : h ≤ 32767)
    (hreq : ∀ t ∈ reqs, 0 < t.1 ∧ 0 < t.2)
    (hrun : runAddRects a0 reqs = some (placed, aF)) :
    (∀ r ∈ placed, inBoundsRect w h r) ∧
    placed.Pairwise (fun r s => ¬ overlaps r s) := by
  have ha0 : a0 = newAtlas w h := by
    rcases hfresh with h1 | ⟨b, h1⟩
    · exact h1
    · rw [h1, reset_eq_newAtlas]
  subst ha0
  obtain ⟨-, -, -, hB, -, -, hpair⟩ :=
    runAddRects_spec reqs (newAtlas w h) [] placed aF
      (newAtlas_Inv hw0 hw1 hh0 hh1) (by simp) (by simp) hreq hrun
  exact ⟨hB, hpair⟩

theorem C1_placements_disjoint_and_in_bounds_witness :
    (∀ r ∈ ([⟨0, 0, 3, 3⟩, ⟨3, 0, 4, 2⟩] : List PlacedRect), inBoundsRect 10 10 r) ∧
    ([⟨0, 0, 3, 3⟩, ⟨3, 0, 4, 2⟩] : List PlacedRect).Pairwise
      (fun r s => ¬ overlaps r s) :=
  C1_placements_disjoint_and_in_bounds 10 10 (newAtlas 10 10) [(3, 3), (4, 2)]
    [⟨0, 0, 3, 3⟩, ⟨3, 0, 4, 2⟩]
    ⟨10, 10, [⟨0, 3, 3⟩, ⟨3, 2, 4⟩, ⟨7, 0, 3⟩]⟩
    (Or.inl rfl) (by decide) (by decide) (by decide) (by decide)
    (by decide) (by decide)

/-! ### The FontStash context (fontstash.go)

Go `float32` quantities (positions, sizes, UVs) are modelled as `ℚ`:
every claim proved below depends only on control flow and on integer
quantities, never on rounding of the real-valued arithmetic.  The two
external collaborators (the `golang.org/x/image` font-shaping library and
the `Renderer` backend) are modelled as an oracle environment `Env` and an
event trace respectively. -/

/-- `image.Rectangle` (only the fields the code uses). -/
structure IRect where
  minX : Int
  minY : Int
  maxX : Int
  maxY : Int
deriving Repr, DecidableEq, Inhabited

/-- `Rectangle.Dx`. -/
def IRect.dx (r : IRect) : Int := r.maxX - r.minX

/-- `Rectangle.Dy`. -/
def IRect.dy (r : IRect) : Int := r.maxY - r.minY

/-- `Glyph` from fontstash.go.  `Size`, `Blur`, `X0..Y1`, `XAdv`,
`XOff`, `YOff` are `int16`; `Next` is a Go `int` (`-1` ends a chain). -/
structure Glyph where
  codepoint : Int
  index : Int
  size : Int
  blur : Int
  x0 : Int
  y0 : Int
  x1 : Int
  y1 : Int
  xadv : Int
  xoff : Int
  yoff : Int
  next : Int
deriving Repr, DecidableEq, Inhabited

/-- `Font` from fontstash.go.  The parsed `sfnt` handle lives in the
oracle environment (keyed by the font's index in `FS.fonts`); `Data`
is `Option` so that a nil byte slice is distinguishable. -/
structure Font where
  name : String
  data : Option (List Nat)
  ascender : ℚ
  descender : ℚ
  lineHeight : ℚ
  glyphs : List Glyph
  lut : List Int
  fallbacks : List Nat
deriving Repr, DecidableEq, Inhabited

/-- `State` from fontstash.go. -/
structure State where
  font : Int
  align : Int
  size : ℚ
  color : Nat
  blur : ℚ
  spacing : ℚ
deriving Repr, DecidableEq, Inhabited

/-- `Vertex` from fontstash.go. -/
structure Vertex where
  x : ℚ
  y : ℚ
  u : ℚ
  v : ℚ
  color : Nat
deriving Repr, DecidableEq, Inhabited

/-- `Error` values from fontstash.go (plus the propagated face-creation
error of the shaping collaborator). -/
inductive GError where
  | atlasFull
  | scratchFull
  | statesOverflow
  | statesUnderflow
  | shapeError
deriving Repr, DecidableEq

/-- `Params` from fontstash.go.  `hasRenderer` models
`Params.Renderer != nil`; the renderer's behaviour is the event trace.
The error callback itself is part of `Env` (a Go closure may capture and
mutate the context); `hasErrorCallback` is derived from it there. -/
structure Params where
  width : Int
  height : Int
  hasRenderer : Bool
  flags : Int
deriving Repr, DecidableEq, Inhabited

/-- `FontStash` from fontstash.go (the unused `Scratch` buffer is
omitted).  The state stack grows at the tail: `States[len-1]` is the last
list element. -/
structure FS where
  params : Params
  atlas : Atlas
  fonts : List Font
  texData : List Nat
  width : Int
  height : Int
  itw : ℚ
  ith : ℚ
  dirty : IRect
  verts : List ℚ
  tcoords : List ℚ
  colors : List Nat
  nverts : Int
  states : List State
deriving Repr, DecidableEq

/-- One observable call to a collaborator, in program order:
renderer calls (`resize`/`update`/`draw`), shaping-library rasterization
queries (`shape`), atlas space requests (`atlasReq`) and error-callback
invocations (`errorCb`). -/
inductive REvent where
  | resize (w h : Int)
  | update (dirty : IRect) (data : List Nat) (stride : Int)
  | draw (verts : List Vertex)
  | shape (fontIdx : Nat) (codepoint : Int)
  | atlasReq (w h : Int) (ok : Bool)
  | errorCb (e : GError)
deriving Repr, DecidableEq

/-- The external collaborators, keyed by font index (the Go code passes
`*Font` pointers obtained from `fs.Fonts[i]`; the index identifies the
same font):
* `glyphIndex` — `(*FontStash).getGlyphIndex` (sfnt `GlyphIndex`, `0` on
  error or notdef);
* `glyphBounds` — the `advance` result of `face.GlyphBounds` (26.6 fixed,
  zero when the face reports `!ok`, which the code ignores);
* `glyphBitmap` — the `dr` rectangle and `mask` image of `face.Glyph`
  (`none` mask models a nil mask; zero values when `!ok`, ignored);
* `faceOK` — whether `opentype.NewFace` succeeds;
* `kern` — `(*FontStash).getGlyphKernAdvance` (sfnt `Kern`, rounded to
  integer pixels, `0` on error);
* `blurAlpha` — the `alpha` coefficient of `(*FontStash).blur`, a
  `float64`/`math.Exp` computation whose exact value no claim depends on;
* `errorCallback` — `Params.ErrorCallback`: a closure which may capture
  and mutate the context (`none` = nil). -/
structure Env where
  glyphIndex : Nat → Int → Int
  faceOK : Nat → ℚ → Bool
  glyphBounds : Nat → Int → ℚ → Int
  glyphBitmap : Nat → Int → ℚ → IRect × Option (IRect × (Int → Int → Nat))
  kern : Nat → Int → Int → ℚ → Int
  blurAlpha : Int → Int
  errorCallback : Option (FS → FS)

/-- Alignment flags. -/
def AlignLeft : Int := 1
def AlignCenter : Int := 2
def AlignRight : Int := 4
def AlignTop : Int := 8
def AlignMiddle : Int := 16
def AlignBottom : Int := 32
def AlignBaseline : Int := 64

/-- Zero coordinate system flags. -/
def ZeroTopLeft : Int := 1
def ZeroBottomLeft : Int := 2

/-- Internal limits and defaults (fontstash.go). -/
def maxStates : Nat := 20
def maxBlur : Int := 20
def minFontSize : Int := 2
def blurPadding : Int := 2
def maxVertices : Int := 1024
def whiteRectSize : Int := 2
def sizeScale : ℚ := 10
def vertsPerQuad : Int := 6

/-- Go's `a&f != 0` test on `int` flags. -/
def hasFlag (a f : Int) : Bool := Int.land a f ≠ 0

/-- Go's `int(q)` / `int16(q)` conversion from a float: truncation toward
zero. -/
def truncQ (q : ℚ) : Int := if 0 ≤ q then ⌊q⌋ else -⌊-q⌋

/-- `hashInt` from fontstash.go, on the 64-bit two's-complement
representation (Go `int`): `^` is bitwise NOT, `+` wraps, `>>` is an
arithmetic shift. -/
def not64 (x : Nat) : Nat := 18446744073709551615 - x

def shl64 (x k : Nat) : Nat := (x <<< k) % 18446744073709551616

def sar64 (x k : Nat) : Nat :=
  if x < 9223372036854775808 then x >>> k
  else x >>> k + (18446744073709551616 - (18446744073709551616 >>> k))

def hashInt (a0 : Nat) : Nat :=
  let a1 := (a0 + not64 (shl64 a0 15)) % 18446744073709551616
  let a2 := a1 ^^^ sar64 a1 10
  let a3 := (a2 + shl64 a2 3) % 18446744073709551616
  let a4 := a3 ^^^ sar64 a3 6
  let a5 := (a4 + not64 (shl64 a4 11)) % 18446744073709551616
  a5 ^^^ sar64 a5 16

/-- A byte write into the texture buffer (Go would panic out of bounds;
all call sites stay in bounds, cf. the guards in `getGlyph`). -/
def writeTex (td : List Nat) (idx : Int) (v : Nat) : List Nat :=
  if 0 ≤ idx then td.set idx.toNat (v % 256) else td

/-- A byte read from the texture buffer. -/
def readTex (td : List Nat) (idx : Int) : Nat := td.getD idx.toNat 0

/-- `getState` from fontstash.go (`&fs.states[len-1]`; the Go code never
calls it on an empty stack). -/
def FS.getState (fs : FS) : State := fs.states.getLastD default

/-- Replace the top of the state stack (the effect of writing through the
`*State` returned by `getState`). -/
def FS.setTopState (fs : FS) (s : State) : FS :=
  { fs with states := fs.states.dropLast ++ [s] }

/-- `ClearState` from fontstash.go. -/
def FS.ClearState (fs : FS) : FS :=
  fs.setTopState
    { font := 0, align := Int.lor AlignLeft AlignBaseline, size := 12,
      color := 0xffffffff, blur := 0, spacing := 0 }

/-- `SetSize` from fontstash.go. -/
def FS.SetSize (fs : FS) (size : ℚ) : FS :=
  fs.setTopState { fs.getState with size := size }

/-- `SetColor` from fontstash.go. -/
def FS.SetColor (fs : FS) (color : Nat) : FS :=
  fs.setTopState { fs.getState with color := color }

/-- `SetSpacing` from fontstash.go. -/
def FS.SetSpacing (fs : FS) (spacing : ℚ) : FS :=
  fs.setTopState { fs.getState with spacing := spacing }

/-- `SetBlur` from fontstash.go. -/
def FS.SetBlur (fs : FS) (blur : ℚ) : FS :=
  fs.setTopState { fs.getState with blur := blur }

/-- `SetAlign` from fontstash.go. -/
def FS.SetAlign (fs : FS) (align : Int) : FS :=
  fs.setTopState { fs.getState with align := align }

/-- `SetFont` from fontstash.go. -/
def FS.SetFont (fs : FS) (font : Int) : FS :=
  fs.setTopState { fs.getState with font := font }

/-- Apply the error callback, as `fs.Params.ErrorCallback(err)` does: the
closure may mutate the context it captured; the invocation is traced. -/
def applyErrorCb (env : Env) (fs : FS) (e : GError) : FS × List REvent :=
  match env.errorCallback with
  | some cb => (cb fs, [.errorCb e])
  | none => (fs, [])

/-- `PushState` from fontstash.go. -/
def FS.PushState (env : Env) (fs : FS) : FS × List REvent :=
  if fs.states.length ≥ maxStates then
    applyErrorCb env fs .statesOverflow
  else if fs.states.length > 0 then
    ({ fs with states := fs.states ++ [fs.states.getLastD default] }, [])
  else
    ({ fs with states := fs.states ++ [default] }, [])

/-- `PopState` from fontstash.go. -/
def FS.PopState (env : Env) (fs : FS) : FS × List REvent :=
  if fs.states.length ≤ 1 then
    applyErrorCb env fs .statesUnderflow
  else
    ({ fs with states := fs.states.dropLast }, [])

/-- The `verts := make([]Vertex, ...)` conversion loop in `flush`. -/
def mkVerts (fs : FS) : List Vertex :=
  (List.range fs.nverts.toNat).map fun i =>
    ⟨fs.verts.getD (2 * i) 0, fs.verts.getD (2 * i + 1) 0,
     fs.tcoords.getD (2 * i) 0, fs.tcoords.getD (2 * i + 1) 0,
     fs.colors.getD i 0⟩

/-- `flush` from fontstash.go: upload the dirty texture region (resetting
the dirty rect) and hand the batched triangles to the renderer (clearing
the batch). -/
def FS.flush (fs : FS) : FS × List REvent :=
  let fs1 :=
    if fs.dirty.minX < fs.dirty.maxX ∧ fs.dirty.minY < fs.dirty.maxY then
      { fs with dirty := ⟨fs.params.width, fs.params.height, 0, 0⟩ }
    else fs
  let ev1 :=
    if fs.dirty.minX < fs.dirty.maxX ∧ fs.dirty.minY < fs.dirty.maxY then
      (if fs.params.hasRenderer then [REvent.update fs.dirty fs.texData fs.params.width] else [])
    else []
  let fs2 :=
    if fs1.nverts > 0 then
      { fs1 with nverts := 0, verts := [], tcoords := [], colors := [] }
    else fs1
  let ev2 :=
    if fs1.nverts > 0 then
      (if fs1.params.hasRenderer then [REvent.draw (mkVerts fs1)] else [])
    else []
  (fs2, ev1 ++ ev2)

/-- `vertex` from fontstash.go. -/
def FS.vertex (fs : FS) (x y s t : ℚ) (c : Nat) : FS :=
  { fs with verts := fs.verts ++ [x, y],
            tcoords := fs.tcoords ++ [s, t],
            colors := fs.colors ++ [c],
            nverts := fs.nverts + 1 }

/-- The rasterize loop of `addWhiteRect` (`dst[(gy+y)*width+(gx+x)] =
0xff` row by row). -/
def rowFill : List Nat → Int → Nat → List Nat
  | td, _, 0 => td
  | td, base, k + 1 => rowFill (writeTex td base 255) (base + 1) k

def rectFill : List Nat → Int → Int → Int → Nat → Nat → List Nat
  | td, _, _, _, _, 0 => td
  | td, stride, gx, gy, w, k + 1 =>
    rectFill (rowFill td (gy * stride + gx) w) stride gx (gy + 1) w k

/-- The dirty-rect expansion performed after a texture write (the four
`if` statements of `addWhiteRect`, repeated in `getGlyph`). -/
def expandDirty (d : IRect) (gx gy w h : Int) : IRect :=
  let d1 := { d with minX := if gx < d.minX then gx else d.minX }
  let d2 := { d1 with minY := if gy < d1.minY then gy else d1.minY }
  let d3 := { d2 with maxX := if gx + w > d2.maxX then gx + w else d2.maxX }
  { d3 with maxY := if gy + h > d3.maxY then gy + h else d3.maxY }

/-- `addWhiteRect` from fontstash.go. -/
def FS.addWhiteRect (fs : FS) (w h : Int) : FS × List REvent :=
  match fs.atlas.addRect w h with
  | none => (fs, [.atlasReq w h false])
  | some (gx, gy, atlas') =>
    let td := rectFill fs.texData fs.params.width gx gy w.toNat h.toNat
    ({ fs with atlas := atlas',
               texData := td,
               dirty := expandDirty fs.dirty gx gy w h }, [.atlasReq w h true])

/-- `New` from fontstash.go.  The returned `error` is always `nil` in the
source, so no error component is modelled (see claim C9); a zero width or
height is silently replaced by the default 512. -/
def New (env : Env) (params0 : Params) : FS × List REvent :=
  let params := { params0 with
    width := if params0.width = 0 then 512 else params0.width,
    height := if params0.height = 0 then 512 else params0.height }
  let fs : FS := {
    params := params,
    width := params.width, height := params.height,
    itw := 1 / (params.width : ℚ), ith := 1 / (params.height : ℚ),
    dirty := ⟨params.width, params.height, 0, 0⟩,
    atlas := newAtlas params.width params.height,
    fonts := [],
    texData := List.replicate (params.width * params.height).toNat 0,
    verts := [], tcoords := [], colors := [], nverts := 0, states := [] }
  let r1 := fs.addWhiteRect whiteRectSize whiteRectSize
  let r2 := r1.1.PushState env
  (r2.1.ClearState, r1.2 ++ r2.2)

/-! ### The rasterization pipeline: `getGlyph` -/

/-- `(*FontStash).getGlyphIndex`: the sfnt `GlyphIndex` call (`0` on
error). -/
def getGlyphIndex (env : Env) (fi : Nat) (codepoint : Int) : Int :=
  env.glyphIndex fi codepoint

/-- `(*FontStash).getGlyphKernAdvance`: the sfnt `Kern` call, rounded to
integer pixels (`0` on error). -/
def getGlyphKernAdvance (env : Env) (fi : Nat) (glyph1 glyph2 : Int) (size : ℚ) : Int :=
  env.kern fi glyph1 glyph2 size

/-- The hash-chain walk of `getGlyph` (`i := f.Lut[h]; for i != -1 ...`).
The chains the code builds are strictly decreasing indices, so
`glyphs.length + 1` fuel always suffices; Go would loop forever on a
cyclic chain, which is unreachable. -/
def lookupLoop (glyphs : List Glyph) (codepoint isize iblur : Int) :
    Nat → Int → Option Glyph
  | 0, _ => none
  | fuel + 1, i =>
    if i = -1 then none
    else
      let g := glyphs.getD i.toNat default
      if g.codepoint = codepoint ∧ g.size = isize ∧ g.blur = iblur then some g
      else lookupLoop glyphs codepoint isize iblur fuel g.next

/-- The fallback-resolution loop of `getGlyph`: first fallback font whose
glyph index is nonzero wins; otherwise the primary font and index 0
stand. -/
def findFallback (env : Env) (codepoint : Int) :
    List Nat → Int × Nat → Int × Nat
  | [], res => res
  | fb :: rest, res =>
    let fallbackIndex := getGlyphIndex env fb codepoint
    if fallbackIndex ≠ 0 then (fallbackIndex, fb)
    else findFallback env codepoint rest res

/-- The `if iblur > maxBlur` clamp at the top of `getGlyph`. -/
def clampBlur (iblur : Int) : Int := if iblur > maxBlur then maxBlur else iblur

/-- The hash-bucket computation `hashInt(int(codepoint)) & (len(f.Lut)-1)`
of `getGlyph`. -/
def glyphHash (f : Font) (codepoint : Int) : Nat :=
  hashInt codepoint.toNat &&& (f.lut.length - 1)

/-- The cache lookup of `getGlyph`: walk the bucket's chain comparing
`(codepoint, size, blur)`. -/
def chainLookup (f : Font) (codepoint isize ib : Int) : Option Glyph :=
  lookupLoop f.glyphs codepoint isize ib (f.glyphs.length + 1)
    (f.lut.getD (glyphHash f codepoint) (-1))

/-- The render-font resolution of `getGlyph`: the primary font's glyph
index, or the first fallback that resolves the codepoint. -/
def resolveRenderFont (env : Env) (f : Font) (fi : Nat) (codepoint : Int) :
    Int × Nat :=
  let gIndex0 := getGlyphIndex env fi codepoint
  if gIndex0 = 0 then findFallback env codepoint f.fallbacks (gIndex0, fi)
  else (gIndex0, fi)

/-- The inner (`x`) loop of the mask-copy in `getGlyph`: write the 8-bit
coverage of `mask.At(x+b.Min.X, y+b.Min.Y)` to
`dst[targetY*width+targetX]`, clipped to the texture extent. -/
def maskCopyX (m : Int → Int → Nat) (width height bMinX bMinY gx gy pad y : Int) :
    Nat → Int → List Nat → List Nat
  | 0, _, td => td
  | k + 1, x, td =>
    let val := m (x + bMinX) (y + bMinY) % 256
    let targetX := gx + pad + x
    let targetY := gy + pad + y
    let td' := if targetX < width ∧ targetY < height
      then writeTex td (targetY * width + targetX) val else td
    maskCopyX m width height bMinX bMinY gx gy pad y k (x + 1) td'

/-- The outer (`y`) loop of the mask-copy in `getGlyph`. -/
def maskCopyY (m : Int → Int → Nat) (width height bMinX bMinY gx gy pad : Int)
    (w : Nat) : Nat → Int → List Nat → List Nat
  | 0, _, td => td
  | k + 1, y, td =>
    maskCopyY m width height bMinX bMinY gx gy pad w k (y + 1)
      (maskCopyX m width height bMinX bMinY gx gy pad y w 0 td)

/-- `uint8(v)` of a Go `int`: the low byte. -/
def toUint8 (v : Int) : Nat := (v % 256).toNat

/-- Forward pass of `blurRows` (`for c := 1; c < w; c++`).  Go's `>> 16`
and `>> 7` on `int` are arithmetic shifts, i.e. floor division by a power
of two. -/
def blurRowFwd (alpha offset : Int) : Nat → Int → Int → List Nat → List Nat
  | 0, _, _, td => td
  | k + 1, c, z, td =>
    let z' := z + (alpha * ((readTex td (offset + c) * 128) - z)) / 65536
    blurRowFwd alpha offset k (c + 1) z' (writeTex td (offset + c) (toUint8 (z' / 128)))

/-- Backward pass of `blurRows` (`for c := w - 2; c >= 0; c--`). -/
def blurRowBwd (alpha offset : Int) : Nat → Int → Int → List Nat → List Nat
  | 0, _, _, td => td
  | k + 1, c, z, td =>
    let z' := z + (alpha * ((readTex td (offset + c) * 128) - z)) / 65536
    blurRowBwd alpha offset k (c - 1) z' (writeTex td (offset + c) (toUint8 (z' / 128)))

/-- `(*FontStash).blurRows`: per row, a forward IIR pass, zero the last
texel, a backward pass, zero the first texel. -/
def blurRowsLoop (alpha stride x y w : Int) : Nat → Int → List Nat → List Nat
  | 0, _, td => td
  | k + 1, r, td =>
    let offset := (y + r) * stride + x
    let td1 := blurRowFwd alpha offset (w - 1).toNat 1 0 td
    let td2 := writeTex td1 (offset + w - 1) 0
    let td3 := blurRowBwd alpha offset (w - 1).toNat (w - 2) 0 td2
    let td4 := writeTex td3 offset 0
    blurRowsLoop alpha stride x y w k (r + 1) td4

/-- Forward pass of `blurCols` (`for r := stride; r < h*stride; r +=
stride`). -/
def blurColFwd (alpha offset stride : Int) : Nat → Int → Int → List Nat → List Nat
  | 0, _, _, td => td
  | k + 1, r, z, td =>
    let z' := z + (alpha * ((readTex td (offset + r) * 128) - z)) / 65536
    blurColFwd alpha offset stride k (r + stride) z' (writeTex td (offset + r) (toUint8 (z' / 128)))

/-- Backward pass of `blurCols`. -/
def blurColBwd (alpha offset stride : Int) : Nat → Int → Int → List Nat → List Nat
  | 0, _, _, td => td
  | k + 1, r, z, td =>
    let z' := z + (alpha * ((readTex td (offset + r) * 128) - z)) / 65536
    blurColBwd alpha offset stride k (r - stride) z' (writeTex td (offset + r) (toUint8 (z' / 128)))

/-- `(*FontStash).blurCols`. -/
def blurColsLoop (alpha stride x y h : Int) : Nat → Int → List Nat → List Nat
  | 0, _, td => td
  | k + 1, c, td =>
    let offset := y * stride + x + c
    let td1 := blurColFwd alpha offset stride (h - 1).toNat stride 0 td
    let td2 := writeTex td1 (offset + (h - 1) * stride) 0
    let td3 := blurColBwd alpha offset stride (h - 1).toNat ((h - 2) * stride) 0 td2
    let td4 := writeTex td3 offset 0
    blurColsLoop alpha stride x y h k (c + 1) td4

/-- `(*FontStash).blur`: two row/column iterations of the separable IIR
approximation.  `alpha` is the oracle's value for the `float64`
computation `int((1<<16) * (1 - exp(-2.3/(sigma+1))))`. -/
def FS.blur (env : Env) (fs : FS) (x y w h stride blur : Int) : FS :=
  if blur < 1 then fs
  else
    let alpha := env.blurAlpha blur
    let td1 := blurRowsLoop alpha stride x y w h.toNat 0 fs.texData
    let td2 := blurColsLoop alpha stride x y h w.toNat 0 td1
    let td3 := blurRowsLoop alpha stride x y w h.toNat 0 td2
    let td4 := blurColsLoop alpha stride x y h w.toNat 0 td3
    { fs with texData := td4 }

/-- The tail of `getGlyph` after a free atlas spot `(gx, gy)` has been
found: build the glyph record, copy the mask into the texture, blur,
expand the dirty rect, and append/link the record into the cache of the
requesting font (`fi`).  The font is re-read from the current context:
Go mutates it through the shared `*Font` pointer. -/
def finishGlyph (env : Env) (fs : FS) (fi : Nat) (codepoint isize iblur pad : Int)
    (gIndex : Int) (advance : Int) (dr : IRect)
    (mask : Option (IRect × (Int → Int → Nat)))
    (gx gy gw gh : Int) (atlas' : Atlas) (h : Nat) : Glyph × FS :=
  let glyph : Glyph := {
    codepoint := codepoint, size := isize, blur := iblur, index := gIndex,
    x0 := wrap16 gx, y0 := wrap16 gy,
    x1 := wrap16 (gx + gw), y1 := wrap16 (gy + gh),
    xadv := wrap16 (Int.tdiv (wrap32 (wrap32 advance * 10)) 64),
    xoff := wrap16 (dr.minX - pad), yoff := wrap16 (dr.minY - pad),
    next := 0 }
  let width := fs.params.width
  let td := match mask with
    | some (b, m) =>
      maskCopyY m width fs.params.height b.minX b.minY gx gy pad
        b.dx.toNat b.dy.toNat 0 fs.texData
    | none => fs.texData
  let fs1 := { fs with atlas := atlas', texData := td }
  let fs2 := if iblur > 0 then fs1.blur env gx gy gw gh width iblur else fs1
  let fs3 := { fs2 with dirty := expandDirty fs2.dirty gx gy gw gh }
  let f := fs3.fonts.getD fi default
  let linked := { glyph with next := f.lut.getD h (-1) }
  let f2 := { f with glyphs := f.glyphs ++ [linked],
                     lut := f.lut.set h (f.glyphs.length : Int) }
  (linked, { fs3 with fonts := fs3.fonts.set fi f2 })

/-- `(*FontStash).getGlyph` from fontstash.go.  Result components: the
returned glyph (`nil` = `none`), the returned error (`nil` = `none`), the
context after the call, and the collaborator-call trace. -/
def FS.getGlyph (env : Env) (fs : FS) (fi : Nat) (codepoint isize iblur : Int) :
    Option Glyph × Option GError × FS × List REvent :=
  if isize < minFontSize then (none, none, fs, [])
  else
    let iblur := clampBlur iblur
    let pad := iblur + blurPadding
    let f := fs.fonts.getD fi default
    let h := glyphHash f codepoint
    match chainLookup f codepoint isize iblur with
    | some g => (some g, none, fs, [])
    | none =>
      -- create glyph
      let gr := resolveRenderFont env f fi codepoint
      let gIndex := gr.1
      let rfi := gr.2
      let size : ℚ := (isize : ℚ) / sizeScale
      if env.faceOK rfi size = false then
        (none, some .shapeError, fs, [.shape rfi codepoint])
      else
        let advance := env.glyphBounds rfi codepoint size
        let dr := (env.glyphBitmap rfi codepoint size).1
        let mask := (env.glyphBitmap rfi codepoint size).2
        let gw := dr.dx + pad * 2
        let gh := dr.dy + pad * 2
        match fs.atlas.addRect gw gh with
        | some (gx, gy, atlas') =>
          let r := finishGlyph env fs fi codepoint isize iblur pad gIndex
            advance dr mask gx gy gw gh atlas' h
          (some r.1, none, r.2, [.shape rfi codepoint, .atlasReq gw gh true])
        | none =>
          -- atlas full: notify once, retry exactly once
          let fs1 := (applyErrorCb env fs .atlasFull).1
          let evCb := (applyErrorCb env fs .atlasFull).2
          match fs1.atlas.addRect gw gh with
          | none =>
            (none, some .atlasFull, fs1,
             [.shape rfi codepoint, .atlasReq gw gh false] ++ evCb ++
               [.atlasReq gw gh false])
          | some (gx, gy, atlas') =>
            let r := finishGlyph env fs1 fi codepoint isize iblur pad gIndex
              advance dr mask gx gy gw gh atlas' h
            (some r.1, none, r.2,
             [.shape rfi codepoint, .atlasReq gw gh false] ++ evCb ++
               [.atlasReq gw gh true])

/-! ### Text layout: `getVertAlign`, `getQuad`, `TextBounds`, `DrawText` -/

/-- `(*FontStash).getVertAlign` from fontstash.go. -/
def FS.getVertAlign (fs : FS) (f : Font) (align : Int) (isize : Int) : ℚ :=
  let size : ℚ := (isize : ℚ) / sizeScale
  if hasFlag fs.params.flags ZeroTopLeft then
    if hasFlag align AlignTop then f.ascender * size
    else if hasFlag align AlignMiddle then (f.ascender + f.descender) / 2 * size
    else if hasFlag align AlignBaseline then 0
    else if hasFlag align AlignBottom then f.descender * size
    else 0
  else
    if hasFlag align AlignTop then -f.ascender * size
    else if hasFlag align AlignMiddle then -(f.ascender + f.descender) / 2 * size
    else if hasFlag align AlignBaseline then 0
    else if hasFlag align AlignBottom then -f.descender * size
    else 0

/-- `Quad` from fontstash.go. -/
structure Quad where
  x0 : ℚ
  y0 : ℚ
  s0 : ℚ
  t0 : ℚ
  x1 : ℚ
  y1 : ℚ
  s1 : ℚ
  t1 : ℚ
deriving Repr, DecidableEq, Inhabited

/-- `(*FontStash).getQuad` from fontstash.go.  Returns the advanced pen
`x` and the quad (`y` is only read).  The `+1`/`-1` on the `int16` glyph
fields are `int16` arithmetic; `float32(int(e))` is truncation toward
zero. -/
def FS.getQuad (env : Env) (fs : FS) (fi : Nat) (prevGlyphIndex : Int)
    (glyph : Glyph) (scale spacing : ℚ) (x y : ℚ) : ℚ × Quad :=
  let x := if prevGlyphIndex ≠ -1 then
      let adv := getGlyphKernAdvance env fi prevGlyphIndex glyph.index
        ((glyph.size : ℚ) / sizeScale)
      x + (truncQ ((adv : ℚ) * scale + spacing + 1/2) : ℚ)
    else x
  let xoff : ℚ := (wrap16 (glyph.xoff + 1) : ℚ)
  let yoff : ℚ := (wrap16 (glyph.yoff + 1) : ℚ)
  let x0 : ℚ := (wrap16 (glyph.x0 + 1) : ℚ)
  let y0 : ℚ := (wrap16 (glyph.y0 + 1) : ℚ)
  let x1 : ℚ := (wrap16 (glyph.x1 - 1) : ℚ)
  let y1 : ℚ := (wrap16 (glyph.y1 - 1) : ℚ)
  let q :=
    if hasFlag fs.params.flags ZeroTopLeft then
      let rx : ℚ := (truncQ (x + xoff) : ℚ)
      let ry : ℚ := (truncQ (y + yoff) : ℚ)
      { x0 := rx, y0 := ry, x1 := rx + x1 - x0, y1 := ry + y1 - y0,
        s0 := x0 * fs.itw, t0 := y0 * fs.ith,
        s1 := x1 * fs.itw, t1 := y1 * fs.ith : Quad }
    else
      let rx : ℚ := (truncQ (x + xoff) : ℚ)
      let ry : ℚ := (truncQ (y - yoff) : ℚ)
      { x0 := rx, y0 := ry, x1 := rx + x1 - x0, y1 := ry - y1 + y0,
        s0 := x0 * fs.itw, t0 := y0 * fs.ith,
        s1 := x1 * fs.itw, t1 := y1 * fs.ith : Quad }
  (x + (truncQ ((glyph.xadv : ℚ) / sizeScale + 1/2) : ℚ), q)

/-- The per-codepoint loop of `TextBounds`.  Loop state: remaining
codepoints, context, pen `x`, the min/max accumulators, the previous
glyph index, and the accumulated trace (`y` is fixed). -/
def textBoundsLoop (env : Env) (fi : Nat) (isize iblur : Int)
    (spacing scale : ℚ) (y : ℚ) :
    List Int → FS → ℚ → ℚ → ℚ → ℚ → ℚ → Int → List REvent →
    FS × ℚ × ℚ × ℚ × ℚ × ℚ × List REvent
  | [], fs, x, minx, miny, maxx, maxy, _prev, evs =>
    (fs, x, minx, miny, maxx, maxy, evs)
  | cp :: rest, fs, x, minx, miny, maxx, maxy, prev, evs =>
    match fs.getGlyph env fi cp isize iblur with
    | (og, oe, fs1, ev1) =>
      if oe.isSome then
        -- `continue`: nothing else changes, not even the kerning context
        textBoundsLoop env fi isize iblur spacing scale y rest fs1 x
          minx miny maxx maxy prev (evs ++ ev1)
      else
        match og with
        | some glyph =>
          let r := fs1.getQuad env fi prev glyph scale spacing x y
          let x' := r.1
          let q := r.2
          let minx' := if q.x0 < minx then q.x0 else minx
          let maxx' := if q.x1 > maxx then q.x1 else maxx
          let miny' :=
            if hasFlag fs1.params.flags ZeroTopLeft then
              (if q.y0 < miny then q.y0 else miny)
            else (if q.y1 < miny then q.y1 else miny)
          let maxy' :=
            if hasFlag fs1.params.flags ZeroTopLeft then
              (if q.y1 > maxy then q.y1 else maxy)
            else (if q.y0 > maxy then q.y0 else maxy)
          textBoundsLoop env fi isize iblur spacing scale y rest fs1 x'
            minx' miny' maxx' maxy' glyph.index (evs ++ ev1)
        | none =>
          textBoundsLoop env fi isize iblur spacing scale y rest fs1 x
            minx miny maxx maxy (-1) (evs ++ ev1)

/-- `(*FontStash).TextBounds` from fontstash.go.  The second component is
what the call writes into a non-nil `bounds` out-parameter (`none` on the
early return, where Go leaves the array untouched). -/
def FS.TextBounds (env : Env) (fs : FS) (x y : ℚ) (str : List Int) :
    ℚ × Option (ℚ × ℚ × ℚ × ℚ) × FS × List REvent :=
  let state := fs.getState
  if state.font < 0 ∨ state.font ≥ (fs.fonts.length : Int) then
    (0, none, fs, [])
  else
    let f := fs.fonts.getD state.font.toNat default
    let isize := wrap16 (truncQ (state.size * sizeScale))
    let iblur := wrap16 (truncQ state.blur)
    let scale : ℚ := 1
    let y1 := y + fs.getVertAlign f state.align isize
    let r :=
      textBoundsLoop env state.font.toNat isize iblur state.spacing scale y1
        str fs x x y1 x y1 (-1) []
    let fs1 := r.1
    let xE := r.2.1
    let minx := r.2.2.1
    let miny := r.2.2.2.1
    let maxx := r.2.2.2.2.1
    let maxy := r.2.2.2.2.2.1
    let evs := r.2.2.2.2.2.2
    let advance := xE - x
    let minx' :=
      if hasFlag state.align AlignLeft then minx
      else if hasFlag state.align AlignRight then minx - advance
      else if hasFlag state.align AlignCenter then minx - advance * (1/2)
      else minx
    let maxx' :=
      if hasFlag state.align AlignLeft then maxx
      else if hasFlag state.align AlignRight then maxx - advance
      else if hasFlag state.align AlignCenter then maxx - advance * (1/2)
      else maxx
    (advance, some (minx', miny, maxx', maxy), fs1, evs)

/-- The per-codepoint loop of `DrawText`: resolve the glyph, build the
quad, flush if the six new vertices would overflow the batch, append the
two triangles. -/
def drawTextLoop (env : Env) (fi : Nat) (isize iblur : Int)
    (spacing : ℚ) (color : Nat) (scale : ℚ) (y : ℚ) :
    List Int → FS → ℚ → Int → List REvent → FS × ℚ × List REvent
  | [], fs, x, _prev, evs => (fs, x, evs)
  | cp :: rest, fs, x, prev, evs =>
    match fs.getGlyph env fi cp isize iblur with
    | (og, oe, fs1, ev1) =>
      if oe.isSome then
        -- `continue`: the kerning context is left as it was
        drawTextLoop env fi isize iblur spacing color scale y rest fs1 x prev
          (evs ++ ev1)
      else
        match og with
        | some glyph =>
          let r := fs1.getQuad env fi prev glyph scale spacing x y
          let x' := r.1
          let q := r.2
          let fs2 :=
            if fs1.nverts + vertsPerQuad > maxVertices then fs1.flush.1
            else fs1
          let ev2 :=
            if fs1.nverts + vertsPerQuad > maxVertices then fs1.flush.2
            else []
          let fs3 :=
            (((((fs2.vertex q.x0 q.y0 q.s0 q.t0 color).vertex
                q.x1 q.y1 q.s1 q.t1 color).vertex
                q.x1 q.y0 q.s1 q.t0 color).vertex
                q.x0 q.y0 q.s0 q.t0 color).vertex
                q.x0 q.y1 q.s0 q.t1 color).vertex
                q.x1 q.y1 q.s1 q.t1 color
          drawTextLoop env fi isize iblur spacing color scale y rest fs3 x'
            glyph.index (evs ++ ev1 ++ ev2)
        | none =>
          drawTextLoop env fi isize iblur spacing color scale y rest fs1 x (-1)
            (evs ++ ev1)

/-- `(*FontStash).DrawText` from fontstash.go.  `str` is the sequence of
runes Go's `range` yields over the string. -/
def FS.DrawText (env : Env) (fs : FS) (x y : ℚ) (str : List Int) :
    ℚ × FS × List REvent :=
  let state := fs.getState
  if state.font < 0 ∨ state.font ≥ (fs.fonts.length : Int) then (x, fs, [])
  else
    let f := fs.fonts.getD state.font.toNat default
    if f.data.isNone then (x, fs, [])
    else
      let isize := wrap16 (truncQ (state.size * sizeScale))
      let iblur := wrap16 (truncQ state.blur)
      let scale : ℚ := 1
      let rA :=
        if hasFlag state.align AlignLeft then (x, fs, ([] : List REvent))
        else if hasFlag state.align AlignRight then
          let rB := fs.TextBounds env x y str
          (x - rB.1, rB.2.2.1, rB.2.2.2)
        else if hasFlag state.align AlignCenter then
          let rB := fs.TextBounds env x y str
          (x - rB.1 * (1/2), rB.2.2.1, rB.2.2.2)
        else (x, fs, ([] : List REvent))
      let xA := rA.1
      let fsA := rA.2.1
      let evA := rA.2.2
      let yA := y + fsA.getVertAlign f state.align isize
      let rL :=
        drawTextLoop env state.font.toNat isize iblur state.spacing state.color
          scale yA str fsA xA (-1) []
      let rF := rL.1.flush
      (rL.2.1, rF.1, evA ++ rL.2.2 ++ rF.2)

/-- `(*FontStash).ResetAtlas` from fontstash.go (always returns `true`,
so the `bool` result is not modelled). -/
def FS.ResetAtlas (fs : FS) (width height : Int) : FS × List REvent :=
  let fs1 := fs.flush.1
  let ev1 := fs.flush.2
  let ev2 := if fs1.params.hasRenderer then [REvent.resize width height] else []
  let fs2 := { fs1 with
    atlas := fs1.atlas.reset width height,
    texData := List.replicate (width * height).toNat 0,
    dirty := ⟨width, height, 0, 0⟩,
    fonts := fs1.fonts.map (fun (f : Font) => { f with glyphs := [], lut := f.lut.map (fun _ => (-1 : Int)) }),
    params := { fs1.params with width := width, height := height },
    width := width, height := height,
    itw := 1 / (width : ℚ), ith := 1 / (height : ℚ) }
  let r3 := fs2.addWhiteRect whiteRectSize whiteRectSize
  (r3.1, ev1 ++ ev2 ++ r3.2)

/-! ### Concrete fixtures used by witnesses and counterexamples -/

/-- A minimal collaborator environment: no codepoint resolves, faces
always build, empty bitmaps, no kerning, no error callback. -/
def trivEnv : Env := {
  glyphIndex := fun _ _ => 0,
  faceOK := fun _ _ => true,
  glyphBounds := fun _ _ _ => 0,
  glyphBitmap := fun _ _ _ => (⟨0, 0, 0, 0⟩, none),
  kern := fun _ _ _ _ => 0,
  blurAlpha := fun _ => 0,
  errorCallback := none }

/-- A 4×4 context fresh out of `New`, with no fonts loaded. -/
def fsSmall : FS :=
  (New trivEnv { width := 4, height := 4, hasRenderer := true, flags := 0 }).1

/-- An 8×8 context fresh out of `New`, with no fonts loaded. -/
def fsMid : FS :=
  (New trivEnv { width := 8, height := 8, hasRenderer := true, flags := 0 }).1

/-- A loaded font with an empty cache, as `AddFontFromBytes` builds it
(256 hash buckets, all `-1`). -/
def fontA : Font := {
  name := "sans", data := some [0], ascender := 3/4, descender := -1/4,
  lineHeight := 1, glyphs := [], lut := List.replicate 256 (-1), fallbacks := [] }

/-! ### Claim C10: out-of-range font id -/

/-- **C10.** For every context whose current state's font id is out of
range (negative or not less than the number of loaded fonts),
`DrawText(x, y, s)` returns `x` unchanged for every string `s`, appends
no vertices, makes no renderer calls, and leaves the whole context
(atlas, texture, dirty rect, font caches) unchanged; `TextBounds`
likewise returns `0` (and writes no bounds) without touching any
state. -/
theorem C10_invalid_font_id_noop (env : Env) (fs : FS) (x y : ℚ) (str : List Int)
    (hfont : fs.getState.font < 0 ∨ fs.getState.font ≥ (fs.fonts.length : Int)) :
    fs.DrawText env x y str = (x, fs, []) ∧
    fs.TextBounds env x y str = (0, none, fs, []) := by
  constructor
  · unfold FS.DrawText
    dsimp only
    rw [if_pos hfont]
  · unfold FS.TextBounds
    dsimp only
    rw [if_pos hfont]

theorem C10_invalid_font_id_noop_witness :
    fsSmall.DrawText trivEnv 5 7 [65] = (5, fsSmall, []) ∧
    fsSmall.TextBounds trivEnv 5 7 [65] = (0, none, fsSmall, []) :=
  C10_invalid_font_id_noop trivEnv fsSmall 5 7 [65] (by decide)

/-! ### Claim C9: construction -/

theorem addWhiteRect_preserves (fs : FS) (w h : Int) :
    (fs.addWhiteRect w h).1.params = fs.params ∧
    (fs.addWhiteRect w h).1.states = fs.states ∧
    (fs.addWhiteRect w h).1.fonts = fs.fonts := by
  unfold FS.addWhiteRect
  cases fs.atlas.addRect w h with
  | none => exact ⟨rfl, rfl, rfl⟩
  | some r =>
    obtain ⟨gx, gy, a⟩ := r
    exact ⟨rfl, rfl, rfl⟩

theorem newTail_params (env : Env) (fs : FS) (h : fs.states = []) :
    ((((fs.addWhiteRect whiteRectSize whiteRectSize).1.PushState env).1).ClearState).params
      = fs.params := by
  obtain ⟨hp, hs, -⟩ := addWhiteRect_preserves fs whiteRectSize whiteRectSize
  unfold FS.PushState
  rw [hs, h]
  norm_num [maxStates]
  simp [FS.ClearState, FS.setTopState, hp]

/-- **C9 (amended).** Construction rejects nothing: `New` never returns
an error (the source returns a nil error unconditionally), and a width
or height of `0` in the configuration is silently replaced by the
default 512 rather than rejected.  No blanket no-panic guarantee
replaces the claim's second conjunct: it is refuted, not merely dropped —
the counterexample shows a negative blur driving the mask copy to an
out-of-range texture write that panics in Go. -/
theorem C9_construction_never_rejects (env : Env) (p : Params) :
    (New env p).1.params.width = (if p.width = 0 then 512 else p.width) ∧
    (New env p).1.params.height = (if p.height = 0 then 512 else p.height) := by
  constructor <;>
    · unfold New
      dsimp only
      rw [newTail_params env _ rfl]

/-- A collaborator environment whose faces produce a visible 1×1 bitmap
at the origin (every coverage value 255); otherwise like `trivEnv`. -/
def envMask : Env := { trivEnv with
  glyphBitmap := fun _ _ _ => (⟨0, 0, 1, 1⟩, some (⟨0, 0, 1, 1⟩, fun _ _ => 255)) }

/-- An 8×8 context fresh out of `New` with one loaded font (the same
construction as `fsC7`, needed at this earlier point of the file). -/
def fsC9 : FS := { fsMid with fonts := [fontA] }

set_option maxRecDepth 100000 in
/-- **C9 counterexample.** Both conjuncts of the claim fail.
(1) The claim says a zero-sized atlas configuration is rejected at
construction; in the code `New` with width and height `0` succeeds and
yields a 512×512 context.
(2) The claim says that for no other input does any operation panic; but
`getGlyph` clamps blur only from above (`if iblur > maxBlur`), so the
blur `-3` — reachable from `DrawText` after `SetBlur(-3)` — gives the
negative padding `pad = clampBlur (-3) + blurPadding = -1`.  On `fsC9`
the glyph is placed at `(gx, gy) = (2, 0)` (shown by the returned
record), the face yields a 1×1 bitmap, and for its single texel
`(x, y) = (0, 0)` the mask copy computes `targetX = gx + pad + x = 1`
and `targetY = gy + pad + y = -1`: the upper-bound-only guard
`targetX < width && targetY < height` passes, and the Go source then
executes `dst[targetY*width+targetX]`, i.e. `dst[-7]` — an out-of-range
slice write that panics.  (`writeTex` totalizes exactly this panic with
its `0 ≤ idx` test, as its doc comment records, so the final two
conjuncts state the guard and the negative index of that very write.) -/
theorem C9_counterexample :
    ((New trivEnv { width := 0, height := 0, hasRenderer := false, flags := 0 }).1.params.width
        = 512 ∧
     (New trivEnv { width := 0, height := 0, hasRenderer := false, flags := 0 }).1.params.height
        = 512) ∧
    clampBlur (-3) = -3 ∧
    ((fsC9.getGlyph envMask 0 65 30 (-3)).1).isSome = true ∧
    (fsC9.getGlyph envMask 0 65 30 (-3)).2.1 = none ∧
    ((fsC9.getGlyph envMask 0 65 30 (-3)).1.getD default).x0 = 2 ∧
    ((fsC9.getGlyph envMask 0 65 30 (-3)).1.getD default).y0 = 0 ∧
    (envMask.glyphBitmap 0 65 ((30 : ℚ) / sizeScale)).2.isSome = true ∧
    (envMask.glyphBitmap 0 65 ((30 : ℚ) / sizeScale)).1.dx = 1 ∧
    (envMask.glyphBitmap 0 65 ((30 : ℚ) / sizeScale)).1.dy = 1 ∧
    ((2 : Int) + (clampBlur (-3) + blurPadding) + 0 < fsC9.params.width ∧
     (0 : Int) + (clampBlur (-3) + blurPadding) + 0 < fsC9.params.height) ∧
    ((0 : Int) + (clampBlur (-3) + blurPadding) + 0) * fsC9.params.width +
      ((2 : Int) + (clampBlur (-3) + blurPadding) + 0) < 0 := by
  refine ⟨⟨?_, ?_⟩, by decide, by decide, by decide, by decide, by decide,
    by decide, by decide, by decide, by decide, by decide⟩
  · unfold New
    dsimp only
    rw [newTail_params trivEnv _ rfl]
    norm_num
  · unfold New
    dsimp only
    rw [newTail_params trivEnv _ rfl]
    norm_num

/-! ### Claim C7: minimum size and blur clamp -/

/-- **C7 (amended).** The minimum-size guard compares the fixed-point
size against `minFontSize = 2` fixed units (i.e. point size 0.2), not 20:
below it, `getGlyph` returns no record and no error, consumes no atlas
space, writes no texels and leaves the context untouched; and the blur
argument is clamped to `maxBlur = 20` before lookup and creation, so any
larger blur behaves exactly like 20. -/
theorem C7_min_size_guard_and_blur_clamp (env : Env) (fs : FS) (fi : Nat)
    (cp isize iblur : Int) :
    (isize < minFontSize → fs.getGlyph env fi cp isize iblur = (none, none, fs, [])) ∧
    (iblur > maxBlur →
      fs.getGlyph env fi cp isize iblur = fs.getGlyph env fi cp isize maxBlur) := by
  constructor
  · intro h
    unfold FS.getGlyph
    rw [if_pos h]
  · intro h
    unfold FS.getGlyph
    by_cases hs : isize < minFontSize
    · rw [if_pos hs, if_pos hs]
    · rw [if_neg hs, if_neg hs]
      have hcl : clampBlur iblur = clampBlur maxBlur := by
        unfold clampBlur
        rw [if_pos h, if_neg (by omega)]
      rw [hcl]

theorem C7_min_size_guard_and_blur_clamp_witness :
    fsSmall.getGlyph trivEnv 0 77 1 25 = (none, none, fsSmall, []) ∧
    fsSmall.getGlyph trivEnv 0 77 30 25 = fsSmall.getGlyph trivEnv 0 77 30 20 :=
  ⟨(C7_min_size_guard_and_blur_clamp trivEnv fsSmall 0 77 1 25).1 (by decide),
   (C7_min_size_guard_and_blur_clamp trivEnv fsSmall 0 77 30 25).2 (by decide)⟩

/-- A context with one loaded font on an 8×8 atlas. -/
def fsC7 : FS := { fsMid with fonts := [fontA] }

set_option maxRecDepth 100000 in
/-- **C7 counterexample.** The claim's example says a fixed-point size
below 20 units (e.g. point size 1, fixed size 10) yields no record; in
the code the threshold is 2, so `getGlyph` at fixed size 10 creates and
returns a record and consumes an atlas rectangle. -/
theorem C7_counterexample :
    ((fsC7.getGlyph trivEnv 0 65 10 0).1).isSome = true ∧
    (fsC7.getGlyph trivEnv 0 65 10 0).2.2.1.atlas ≠ fsC7.atlas := by
  constructor
  · decide
  · decide

/-! ### Claim C3: cache idempotence -/

theorem getD_set_self {α : Type _} (l : List α) (i : Nat) (v d : α)
    (h : i < l.length) : (l.set i v).getD i d = v := by
  rw [List.getD_eq_getElem?_getD, List.getElem?_set_self (by omega)]
  rfl

theorem getD_concat_length {α : Type _} (xs : List α) (a d : α) :
    (xs ++ [a]).getD xs.length d = a := by
  rw [List.getD_eq_getElem?_getD, List.getElem?_concat_length]
  rfl

theorem glyphHash_lt (f : Font) (cp : Int) (h : 0 < f.lut.length) :
    glyphHash f cp < f.lut.length :=
  lt_of_le_of_lt Nat.and_le_right (by omega)

theorem applyCb_none (env : Env) (fs : FS) (e : GError)
    (hcb : env.errorCallback = none) : applyErrorCb env fs e = (fs, []) := by
  unfold applyErrorCb
  rw [hcb]

/-- `blur` only rewrites texels. -/
theorem blur_eq (env : Env) (fs : FS) (x y w h st b : Int) :
    ∃ td, fs.blur env x y w h st b = { fs with texData := td } := by
  unfold FS.blur
  split
  · exact ⟨fs.texData, rfl⟩
  · exact ⟨_, rfl⟩

/-- One unfolding step of the chain walk. -/
theorem lookupLoop_succ (glyphs : List Glyph) (cp s b : Int) (fuel : Nat) (i : Int) :
    lookupLoop glyphs cp s b (fuel + 1) i =
      if i = -1 then none
      else
        let g := glyphs.getD i.toNat default
        if g.codepoint = cp ∧ g.size = s ∧ g.blur = b then some g
        else lookupLoop glyphs cp s b fuel g.next := rfl

/-- What `finishGlyph` does to the cache: the new record carries the
looked-up key, it is appended to the requesting font's glyph array, and
the bucket `h0` now points at its index; nothing else about the font
list's shape, the state stack or the vertex batch changes. -/
theorem finishGlyph_spec (env : Env) (fs : FS) (fi : Nat)
    (cp isize ib pad gIndex advance : Int) (dr : IRect)
    (mask : Option (IRect × (Int → Int → Nat)))
    (gx gy gw gh : Int) (at' : Atlas) (h0 : Nat)
    (hfi : fi < fs.fonts.length) :
    (finishGlyph env fs fi cp isize ib pad gIndex advance dr mask gx gy gw gh at' h0).1.codepoint = cp ∧
    (finishGlyph env fs fi cp isize ib pad gIndex advance dr mask gx gy gw gh at' h0).1.size = isize ∧
    (finishGlyph env fs fi cp isize ib pad gIndex advance dr mask gx gy gw gh at' h0).1.blur = ib ∧
    (finishGlyph env fs fi cp isize ib pad gIndex advance dr mask gx gy gw gh at' h0).1.index = gIndex ∧
    ((finishGlyph env fs fi cp isize ib pad gIndex advance dr mask gx gy gw gh at' h0).2.fonts.getD fi default).glyphs
      = (fs.fonts.getD fi default).glyphs ++
        [(finishGlyph env fs fi cp isize ib pad gIndex advance dr mask gx gy gw gh at' h0).1] ∧
    ((finishGlyph env fs fi cp isize ib pad gIndex advance dr mask gx gy gw gh at' h0).2.fonts.getD fi default).lut
      = (fs.fonts.getD fi default).lut.set h0 ((fs.fonts.getD fi default).glyphs.length : Int) ∧
    (finishGlyph env fs fi cp isize ib pad gIndex advance dr mask gx gy gw gh at' h0).2.nverts = fs.nverts ∧
    (finishGlyph env fs fi cp isize ib pad gIndex advance dr mask gx gy gw gh at' h0).2.states = fs.states ∧
    (finishGlyph env fs fi cp isize ib pad gIndex advance dr mask gx gy gw gh at' h0).2.params = fs.params := by
  unfold finishGlyph
  dsimp only
  by_cases hb : ib > 0
  · rw [if_pos hb]
    obtain ⟨td, hbl⟩ := blur_eq env _ gx gy gw gh fs.params.width ib
    rw [hbl]
    dsimp only
    refine ⟨rfl, rfl, rfl, rfl, ?_, ?_, rfl, rfl, rfl⟩
    · rw [getD_set_self _ _ _ _ (by simpa using hfi)]
    · rw [getD_set_self _ _ _ _ (by simpa using hfi)]
  · rw [if_neg hb]
    dsimp only
    refine ⟨rfl, rfl, rfl, rfl, ?_, ?_, rfl, rfl, rfl⟩
    · rw [getD_set_self _ _ _ _ (by simpa using hfi)]
    · rw [getD_set_self _ _ _ _ (by simpa using hfi)]

/-- After appending a record with the looked-up key and pointing the
bucket at it, the chain walk finds exactly that record at the head. -/
theorem lookup_after_append (f f2 : Font) (cp isize ib : Int) (g : Glyph)
    (h0 : Nat) (hh0 : h0 < f.lut.length)
    (hkey : g.codepoint = cp ∧ g.size = isize ∧ g.blur = ib)
    (hglyphs : f2.glyphs = f.glyphs ++ [g])
    (hlut : f2.lut = f.lut.set h0 (f.glyphs.length : Int))
    (hhash : glyphHash f2 cp = h0) :
    chainLookup f2 cp isize ib = some g := by
  unfold chainLookup
  rw [hhash, hlut, getD_set_self _ _ _ _ (by simpa using hh0), hglyphs]
  have hlen : (f.glyphs ++ [g]).length + 1 = f.glyphs.length + 1 + 1 := by simp
  rw [hlen, lookupLoop_succ]
  rw [if_neg (by omega)]
  dsimp only
  rw [Int.toNat_natCast, getD_concat_length, if_pos hkey]

/-- **C3.** If `getGlyph` returns a glyph record, a second call with the
same arguments (and no intervening reset) returns the very same record
and leaves the context untouched — no new record, no atlas request, no
texture write, no collaborator call at all (empty trace).  The
hypotheses say the font id is a loaded font with a nonempty bucket table
(as `AddFontFromBytes` builds it) and no error callback is installed. -/
theorem C3_cache_idempotent (env : Env) (fs : FS) (fi : Nat)
    (cp isize iblur : Int) (g : Glyph) (oe : Option GError) (fs' : FS)
    (evs : List REvent)
    (hfi : fi < fs.fonts.length)
    (hlut : 0 < (fs.fonts.getD fi default).lut.length)
    (hcb : env.errorCallback = none)
    (h : fs.getGlyph env fi cp isize iblur = (some g, oe, fs', evs)) :
    fs'.getGlyph env fi cp isize iblur = (some g, none, fs', []) := by
  unfold FS.getGlyph at h
  by_cases hs : isize < minFontSize
  · rw [if_pos hs] at h
    exact absurd h (by simp)
  rw [if_neg hs] at h
  dsimp only at h
  cases hL : chainLookup (fs.fonts.getD fi default) cp isize (clampBlur iblur) with
  | some g0 =>
    rw [hL] at h
    injection h with h1 h
    injection h with h2 h
    injection h with h3 h4
    injection h1 with h1
    subst h1; subst h3
    unfold FS.getGlyph
    rw [if_neg hs]
    dsimp only
    rw [hL]
  | none =>
    rw [hL] at h
    by_cases hface : env.faceOK (resolveRenderFont env (fs.fonts.getD fi default) fi cp).2
        ((isize : ℚ) / sizeScale) = false
    · rw [if_pos hface] at h
      exact absurd h (by simp)
    · rw [if_neg hface] at h
      cases hA : fs.atlas.addRect
          ((env.glyphBitmap (resolveRenderFont env (fs.fonts.getD fi default) fi cp).2 cp
            ((isize : ℚ) / sizeScale)).1.dx + (clampBlur iblur + blurPadding) * 2)
          ((env.glyphBitmap (resolveRenderFont env (fs.fonts.getD fi default) fi cp).2 cp
            ((isize : ℚ) / sizeScale)).1.dy + (clampBlur iblur + blurPadding) * 2) with
      | some trip =>
        obtain ⟨gx, gy, at'⟩ := trip
        rw [hA] at h
        dsimp only at h
        injection h with h1 h
        injection h with h2 h
        injection h with h3 h4
        injection h1 with h1
        obtain ⟨hc1, hc2, hc3, -, hglyphs, hlutf, -, -, -⟩ :=
          finishGlyph_spec env fs fi cp isize (clampBlur iblur)
            (clampBlur iblur + blurPadding)
            (resolveRenderFont env (fs.fonts.getD fi default) fi cp).1
            (env.glyphBounds (resolveRenderFont env (fs.fonts.getD fi default) fi cp).2 cp
              ((isize : ℚ) / sizeScale))
            (env.glyphBitmap (resolveRenderFont env (fs.fonts.getD fi default) fi cp).2 cp
              ((isize : ℚ) / sizeScale)).1
            (env.glyphBitmap (resolveRenderFont env (fs.fonts.getD fi default) fi cp).2 cp
              ((isize : ℚ) / sizeScale)).2
            gx gy
            ((env.glyphBitmap (resolveRenderFont env (fs.fonts.getD fi default) fi cp).2 cp
              ((isize : ℚ) / sizeScale)).1.dx + (clampBlur iblur + blurPadding) * 2)
            ((env.glyphBitmap (resolveRenderFont env (fs.fonts.getD fi default) fi cp).2 cp
              ((isize : ℚ) / sizeScale)).1.dy + (clampBlur iblur + blurPadding) * 2)
            at' (glyphHash (fs.fonts.getD fi default) cp) hfi
        rw [h1] at hc1 hc2 hc3 hglyphs
        rw [h3] at hglyphs hlutf
        have hhash2 : glyphHash (fs'.fonts.getD fi default) cp
            = glyphHash (fs.fonts.getD fi default) cp := by
          unfold glyphHash
          rw [hlutf, List.length_set]
        have hfind := lookup_after_append (fs.fonts.getD fi default)
          (fs'.fonts.getD fi default) cp isize (clampBlur iblur) g
          (glyphHash (fs.fonts.getD fi default) cp)
          (glyphHash_lt _ _ hlut) ⟨hc1, hc2, hc3⟩ hglyphs hlutf hhash2
        unfold FS.getGlyph
        rw [if_neg hs]
        dsimp only
        rw [hfind]
      | none =>
        rw [hA] at h
        rw [applyCb_none env fs .atlasFull hcb] at h
        dsimp only at h
        rw [hA] at h
        exact absurd h (by simp)

/-- A loaded font whose metric fields are integral rationals (so that
kernel evaluation of context equality does not need rational
normalization). -/
def fontB : Font := {
  name := "mono", data := some [0], ascender := 1, descender := 0,
  lineHeight := 1, glyphs := [], lut := List.replicate 256 (-1), fallbacks := [] }

/-- A hand-rolled 8×8 context holding `fontB`, with a fresh atlas. -/
def fsC3 : FS := {
  params := { width := 8, height := 8, hasRenderer := false, flags := 0 },
  atlas := newAtlas 8 8,
  fonts := [fontB],
  texData := List.replicate 64 0,
  width := 8, height := 8, itw := 0, ith := 0,
  dirty := ⟨8, 8, 0, 0⟩, verts := [], tcoords := [], colors := [],
  nverts := 0, states := [] }

set_option maxRecDepth 100000 in
theorem C3_cache_idempotent_witness :
    ((fsC3.getGlyph trivEnv 0 66 30 0).2.2.1).getGlyph trivEnv 0 66 30 0 =
      (some (((fsC3.getGlyph trivEnv 0 66 30 0).1).getD default),
       none, (fsC3.getGlyph trivEnv 0 66 30 0).2.2.1, []) :=
  C3_cache_idempotent trivEnv fsC3 0 66 30 0
    (((fsC3.getGlyph trivEnv 0 66 30 0).1).getD default)
    ((fsC3.getGlyph trivEnv 0 66 30 0).2.1)
    ((fsC3.getGlyph trivEnv 0 66 30 0).2.2.1)
    ((fsC3.getGlyph trivEnv 0 66 30 0).2.2.2)
    (by decide) (by decide) rfl (by decide)

/-! ### Claim C4: atlas-full notification and retry -/

/-- Whether a trace event is an invocation of the error callback. -/
def isCbEvent : REvent → Bool
  | .errorCb _ => true
  | _ => false

/-- Whether a trace event is an atlas space request. -/
def isReqEvent : REvent → Bool
  | .atlasReq _ _ _ => true
  | _ => false

/-- **C4.** When the first atlas space request of `getGlyph` fails (cache
miss, face available, `addRect` on the padded `gw × gh` rectangle returns
no spot), the error callback is invoked exactly once with `AtlasFull`
when one is installed and zero times otherwise, and the space request is
retried exactly once: the trace carries exactly two atlas requests in
every outcome.  If the retry (against the context as possibly mutated by
the callback) fails as well, `getGlyph` returns the `AtlasFull` error
with no glyph record, and the resulting context is exactly the
callback-notified context — `getGlyph` itself appends nothing to any
cache.  In particular with no callback installed the retry still happens,
fails identically, and the context comes back completely unchanged. -/
theorem C4_atlas_full_notify_and_retry (env : Env) (fs : FS) (fi : Nat)
    (cp isize iblur : Int) (rfi : Nat) (gw gh : Int)
    (hs : ¬ isize < minFontSize)
    (hmiss : chainLookup (fs.fonts.getD fi default) cp isize (clampBlur iblur) = none)
    (hrfi : rfi = (resolveRenderFont env (fs.fonts.getD fi default) fi cp).2)
    (hface : ¬ env.faceOK rfi ((isize : ℚ) / sizeScale) = false)
    (hgw : gw = (env.glyphBitmap rfi cp ((isize : ℚ) / sizeScale)).1.dx +
      (clampBlur iblur + blurPadding) * 2)
    (hgh : gh = (env.glyphBitmap rfi cp ((isize : ℚ) / sizeScale)).1.dy +
      (clampBlur iblur + blurPadding) * 2)
    (hfail : fs.atlas.addRect gw gh = none) :
    ((fs.getGlyph env fi cp isize iblur).2.2.2.countP isCbEvent
        = if env.errorCallback.isSome then 1 else 0) ∧
    ((fs.getGlyph env fi cp isize iblur).2.2.2.countP isReqEvent = 2) ∧
    ((applyErrorCb env fs .atlasFull).1.atlas.addRect gw gh = none →
      fs.getGlyph env fi cp isize iblur =
        (none, some .atlasFull, (applyErrorCb env fs .atlasFull).1,
         [.shape rfi cp, .atlasReq gw gh false] ++ (applyErrorCb env fs .atlasFull).2 ++
           [.atlasReq gw gh false])) ∧
    (env.errorCallback = none →
      fs.getGlyph env fi cp isize iblur =
        (none, some .atlasFull, fs,
         [.shape rfi cp, .atlasReq gw gh false, .atlasReq gw gh false])) := by
  subst hrfi
  subst hgw
  subst hgh
  unfold FS.getGlyph
  rw [if_neg hs]
  dsimp only
  rw [hmiss]
  dsimp only
  rw [if_neg hface]
  rw [hfail]
  dsimp only
  cases hcb : env.errorCallback with
  | none =>
    simp only [applyErrorCb, hcb]
    rw [hfail]
    dsimp only
    refine ⟨?_, ?_, ?_, ?_⟩
    · simp [isCbEvent]
    · simp [isReqEvent]
    · intro _
      simp
    · intro _
      simp
  | some cb =>
    simp only [applyErrorCb, hcb]
    cases hretry : (cb fs).atlas.addRect
        ((env.glyphBitmap (resolveRenderFont env (fs.fonts.getD fi default) fi cp).2 cp
          ((isize : ℚ) / sizeScale)).1.dx + (clampBlur iblur + blurPadding) * 2)
        ((env.glyphBitmap (resolveRenderFont env (fs.fonts.getD fi default) fi cp).2 cp
          ((isize : ℚ) / sizeScale)).1.dy + (clampBlur iblur + blurPadding) * 2) with
    | none =>
      dsimp only
      refine ⟨?_, ?_, ?_, ?_⟩
      · simp [isCbEvent]
      · simp [isReqEvent]
      · intro _
        simp
      · intro hnone
        exact absurd hnone (by simp [hcb])
    | some trip =>
      obtain ⟨gx, gy, at'⟩ := trip
      dsimp only
      refine ⟨?_, ?_, ?_, ?_⟩
      · simp [isCbEvent]
      · simp [isReqEvent]
      · intro habs
        exact absurd habs (by simp)
      · intro hnone
        exact absurd hnone (by simp [hcb])

/-- A context over a 2×2 atlas, on which every padded request fails. -/
def fsC4 : FS := {
  params := { width := 2, height := 2, hasRenderer := false, flags := 0 },
  atlas := newAtlas 2 2,
  fonts := [fontB],
  texData := List.replicate 4 0,
  width := 2, height := 2, itw := 0, ith := 0,
  dirty := ⟨2, 2, 0, 0⟩, verts := [], tcoords := [], colors := [],
  nverts := 0, states := [] }

set_option maxRecDepth 100000 in
theorem C4_atlas_full_notify_and_retry_witness :
    ((fsC4.getGlyph trivEnv 0 66 30 0).2.2.2.countP isCbEvent
        = if trivEnv.errorCallback.isSome then 1 else 0) ∧
    ((fsC4.getGlyph trivEnv 0 66 30 0).2.2.2.countP isReqEvent = 2) ∧
    ((applyErrorCb trivEnv fsC4 .atlasFull).1.atlas.addRect 4 4 = none →
      fsC4.getGlyph trivEnv 0 66 30 0 =
        (none, some .atlasFull, (applyErrorCb trivEnv fsC4 .atlasFull).1,
         [.shape 0 66, .atlasReq 4 4 false] ++ (applyErrorCb trivEnv fsC4 .atlasFull).2 ++
           [.atlasReq 4 4 false])) ∧
    (trivEnv.errorCallback = none →
      fsC4.getGlyph trivEnv 0 66 30 0 =
        (none, some .atlasFull, fsC4,
         [.shape 0 66, .atlasReq 4 4 false, .atlasReq 4 4 false])) :=
  C4_atlas_full_notify_and_retry trivEnv fsC4 0 66 30 0 0 4 4
    (by decide) (by decide) (by decide) (by decide) (by decide) (by decide)
    (by decide)

/-! ### Claim C5: reset invalidation -/

/-- `flush` never touches the configuration or the font list. -/
theorem flush_preserves (fs : FS) :
    (fs.flush.1).params = fs.params ∧ (fs.flush.1).fonts = fs.fonts := by
  unfold FS.flush
  dsimp only
  split_ifs <;> exact ⟨rfl, rfl⟩

/-- The 2×2 fill of `addWhiteRect` at the origin writes the four texels
`0`, `1`, `w`, `w+1`. -/
theorem rectFill_two (td : List Nat) (w : Int) (hw : 0 < w) :
    rectFill td w 0 0 2 2 =
      (((td.set 0 255).set 1 255).set w.toNat 255).set (w + 1).toNat 255 := by
  have h1 : (0 : Int) ≤ w := by omega
  have h2 : (0 : Int) ≤ w + 1 := by omega
  simp [rectFill, rowFill, writeTex, h1, h2]

/-- On a fresh atlas of width at least `2` (within `int16` range) and
height at least `3`, the white-rect request lands at the origin and the
skyline becomes the 2-high shelf. -/
theorem addRect_fresh_two (w h : Int) (hw1 : 2 ≤ w) (hw2 : w ≤ 32767)
    (hh : 3 ≤ h) :
    (newAtlas w h).addRect 2 2 =
      some (0, 0, { width := w, height := h,
                    nodes := (if w = 2 then [⟨0, 2, 2⟩]
                      else [⟨0, 2, 2⟩, ⟨2, 0, w - 2⟩]) }) := by
  have hwr : wrap16 w = w := wrap16_eq (by omega) (by omega)
  unfold Atlas.addRect newAtlas
  dsimp only
  rw [hwr]
  have hfit : (Atlas.rectFits { width := w, height := h, nodes := [⟨0, 0, w⟩] } 0 2 2)
      = some 0 := by
    unfold Atlas.rectFits
    dsimp only [List.drop]
    rw [if_neg (by omega)]
    simp only [rectFitsLoop]
    rw [if_pos (by omega : (2 : Int) > 0)]
    rw [show maxInt 0 0 = 0 from rfl]
    rw [if_neg (by omega : ¬ (0 : Int) + 2 > h)]
    rw [if_neg (by omega : ¬ (2 : Int) - w > 0)]
  simp only [bestFitAux, hfit]
  rw [if_pos (Or.inl (by omega : (0 : Int) + 2 < h))]
  simp only [bestFitAux]
  unfold Atlas.addSkylineLevel
  dsimp only
  have hz : wrap16 0 = 0 := by decide
  have ht : wrap16 2 = 2 := by decide
  rw [hz, ht, show wrap16 (0 + 2) = 2 by decide]
  simp only [List.take, List.drop]
  unfold trimShadow
  rw [if_pos (by omega : (0 : Int) < 2)]
  dsimp only
  rw [show wrap16 (2 - 0) = 2 by decide]
  have hw2' : wrap16 (w - 2) = w - 2 := wrap16_eq (by omega) (by omega)
  rw [hw2']
  by_cases hw3 : w = 2
  · rw [if_pos (by omega)]
    subst hw3
    rfl
  · rw [if_neg (by omega)]
    rw [if_neg hw3]
    rw [show wrap16 (0 + 2) = 2 by decide]
    simp only [List.nil_append]
    unfold mergeNodes
    simp only [List.length_cons, List.length_nil]
    simp only [mergeLoop]
    norm_num

/-- A bucket table overwritten with `-1` reads `-1` at every index. -/
theorem lut_getD_cleared (l : List Int) (i : Nat) :
    (l.map (fun _ => (-1 : Int))).getD i (-1) = -1 := by
  rw [List.getD_eq_getElem?_getD, List.getElem?_map]
  cases l[i]? <;> rfl

/-- A font whose glyph array is empty and whose bucket table reads `-1`
everywhere misses on every key. -/
theorem chainLookup_none_of (f : Font) (hg : f.glyphs = [])
    (hl : ∀ i, f.lut.getD i (-1) = -1) (cp isize ib : Int) :
    chainLookup f cp isize ib = none := by
  unfold chainLookup
  rw [hl, hg]
  rw [lookupLoop_succ]
  simp

/-- On a cache miss above the minimum size, `getGlyph` always enters the
rasterization pipeline: the trace starts with the shaping call on the
resolved render font. -/
theorem getGlyph_miss_shape (env : Env) (fs : FS) (fi : Nat) (cp isize ib : Int)
    (hs : ¬ isize < minFontSize)
    (hmiss : chainLookup (fs.fonts.getD fi default) cp isize (clampBlur ib) = none) :
    ∃ t, (fs.getGlyph env fi cp isize ib).2.2.2
      = .shape (resolveRenderFont env (fs.fonts.getD fi default) fi cp).2 cp :: t := by
  unfold FS.getGlyph
  rw [if_neg hs]
  dsimp only
  rw [hmiss]
  dsimp only
  by_cases hface : env.faceOK (resolveRenderFont env (fs.fonts.getD fi default) fi cp).2
      ((isize : ℚ) / sizeScale) = false
  · rw [if_pos hface]
    exact ⟨[], rfl⟩
  · rw [if_neg hface]
    cases hA : fs.atlas.addRect
        ((env.glyphBitmap (resolveRenderFont env (fs.fonts.getD fi default) fi cp).2 cp
          ((isize : ℚ) / sizeScale)).1.dx + (clampBlur ib + blurPadding) * 2)
        ((env.glyphBitmap (resolveRenderFont env (fs.fonts.getD fi default) fi cp).2 cp
          ((isize : ℚ) / sizeScale)).1.dy + (clampBlur ib + blurPadding) * 2) with
    | some trip =>
      obtain ⟨gx, gy, at'⟩ := trip
      dsimp only
      exact ⟨_, rfl⟩
    | none =>
      dsimp only
      cases h2 : (applyErrorCb env fs .atlasFull).1.atlas.addRect
          ((env.glyphBitmap (resolveRenderFont env (fs.fonts.getD fi default) fi cp).2 cp
            ((isize : ℚ) / sizeScale)).1.dx + (clampBlur ib + blurPadding) * 2)
          ((env.glyphBitmap (resolveRenderFont env (fs.fonts.getD fi default) fi cp).2 cp
            ((isize : ℚ) / sizeScale)).1.dy + (clampBlur ib + blurPadding) * 2) with
      | none =>
        dsimp only
        exact ⟨_, rfl⟩
      | some trip =>
        obtain ⟨gx, gy, at'⟩ := trip
        dsimp only
        exact ⟨_, rfl⟩

/-- **C5.** `ResetAtlas(w, h)` (for any in-range `w ≥ 2`, `h ≥ 3`, so the
white rectangle fits) clears every font to an empty glyph array with
every bucket `-1`; consequently every key — in particular every key
cached before the reset — misses, and a subsequent `getGlyph` above the
minimum size re-enters the rasterization pipeline (its trace starts with
the shaping call).  The reset flushes first, notifies the renderer
resize, re-adds the 2×2 white rectangle (its atlas request succeeds at
the origin), replaces the texture by a zeroed buffer in which only the
four white-rect texels are set, leaves the dirty rect covering exactly
the white rectangle, and installs a fresh `w × h` allocator. -/
theorem C5_reset_invalidation (env : Env) (fs : FS) (w h : Int)
    (hw1 : 2 ≤ w) (hw2 : w ≤ 32767) (hh : 3 ≤ h) :
    ((fs.ResetAtlas w h).1.fonts
        = fs.fonts.map (fun (f : Font) =>
            { f with glyphs := [], lut := f.lut.map (fun _ => (-1 : Int)) })) ∧
    (∀ fi cp isize ib,
      chainLookup ((fs.ResetAtlas w h).1.fonts.getD fi default) cp isize ib = none) ∧
    (∀ fi cp isize ib, ¬ isize < minFontSize →
      ∃ t, ((fs.ResetAtlas w h).1.getGlyph env fi cp isize ib).2.2.2
        = .shape (resolveRenderFont env
            ((fs.ResetAtlas w h).1.fonts.getD fi default) fi cp).2 cp :: t) ∧
    ((fs.ResetAtlas w h).2
        = fs.flush.2 ++ (if fs.params.hasRenderer then [.resize w h] else [])
            ++ [.atlasReq 2 2 true]) ∧
    ((fs.ResetAtlas w h).1.texData
        = ((((List.replicate (w * h).toNat 0).set 0 255).set 1 255).set
            w.toNat 255).set (w + 1).toNat 255) ∧
    ((fs.ResetAtlas w h).1.dirty = ⟨0, 0, 2, 2⟩) ∧
    ((fs.ResetAtlas w h).1.atlas.width = w ∧ (fs.ResetAtlas w h).1.atlas.height = h) := by
  obtain ⟨hp, hf⟩ := flush_preserves fs
  have hkey : ∀ (g : FS), g.fonts = fs.fonts.map (fun (f : Font) =>
      { f with glyphs := [], lut := f.lut.map (fun _ => (-1 : Int)) }) →
      ∀ fi cp isize ib, chainLookup (g.fonts.getD fi default) cp isize ib = none := by
    intro g hg fi cp isize ib
    rw [hg]
    by_cases hfi : fi < fs.fonts.length
    · rw [List.getD_eq_getElem?_getD, List.getElem?_map,
        List.getElem?_eq_getElem hfi]
      refine chainLookup_none_of _ rfl ?_ cp isize ib
      intro i
      exact lut_getD_cleared _ i
    · rw [List.getD_eq_getElem?_getD, List.getElem?_map,
        List.getElem?_eq_none (by omega)]
      refine chainLookup_none_of _ rfl ?_ cp isize ib
      intro i
      rfl
  have hmain : (fs.ResetAtlas w h).1 = {
      params := { fs.params with width := w, height := h },
      atlas := { width := w, height := h,
                 nodes := (if w = 2 then [⟨0, 2, 2⟩] else [⟨0, 2, 2⟩, ⟨2, 0, w - 2⟩]) },
      fonts := fs.fonts.map (fun (f : Font) =>
        { f with glyphs := [], lut := f.lut.map (fun _ => (-1 : Int)) }),
      texData := ((((List.replicate (w * h).toNat 0).set 0 255).set 1 255).set
        w.toNat 255).set (w + 1).toNat 255,
      width := w, height := h, itw := 1 / (w : ℚ), ith := 1 / (h : ℚ),
      dirty := ⟨0, 0, 2, 2⟩,
      verts := fs.flush.1.verts, tcoords := fs.flush.1.tcoords,
      colors := fs.flush.1.colors, nverts := fs.flush.1.nverts,
      states := fs.flush.1.states } ∧
      (fs.ResetAtlas w h).2
        = fs.flush.2 ++ (if fs.params.hasRenderer then [.resize w h] else [])
            ++ [.atlasReq 2 2 true] := by
    unfold FS.ResetAtlas
    dsimp only
    rw [hp, hf]
    unfold FS.addWhiteRect
    dsimp only
    rw [reset_eq_newAtlas]
    rw [show (whiteRectSize : Int) = 2 from rfl]
    rw [addRect_fresh_two w h hw1 hw2 hh]
    dsimp only
    rw [show Int.toNat 2 = 2 from rfl]
    rw [rectFill_two _ w (by omega)]
    refine ⟨?_, rfl⟩
    have hw0 : (0 : Int) < w := by omega
    have hh0 : (0 : Int) < h := by omega
    simp [expandDirty, hw0, hh0]
  obtain ⟨h1, h2⟩ := hmain
  refine ⟨by rw [h1], hkey _ (by rw [h1]), ?_, h2, by rw [h1], by rw [h1],
    by rw [h1], by rw [h1]⟩
  intro fi cp isize ib hsz
  exact getGlyph_miss_shape env _ fi cp isize ib hsz
    (hkey _ (by rw [h1]) fi cp isize (clampBlur ib))

set_option maxRecDepth 100000 in
theorem C5_reset_invalidation_witness :
    ((fsC3.ResetAtlas 4 4).1.fonts
        = fsC3.fonts.map (fun (f : Font) =>
            { f with glyphs := [], lut := f.lut.map (fun _ => (-1 : Int)) })) ∧
    (∀ fi cp isize ib,
      chainLookup ((fsC3.ResetAtlas 4 4).1.fonts.getD fi default) cp isize ib = none) ∧
    (∀ fi cp isize ib, ¬ isize < minFontSize →
      ∃ t, ((fsC3.ResetAtlas 4 4).1.getGlyph trivEnv fi cp isize ib).2.2.2
        = .shape (resolveRenderFont trivEnv
            ((fsC3.ResetAtlas 4 4).1.fonts.getD fi default) fi cp).2 cp :: t) ∧
    ((fsC3.ResetAtlas 4 4).2
        = fsC3.flush.2 ++ (if fsC3.params.hasRenderer then [.resize 4 4] else [])
            ++ [.atlasReq 2 2 true]) ∧
    ((fsC3.ResetAtlas 4 4).1.texData
        = ((((List.replicate ((4 : Int) * 4).toNat 0).set 0 255).set 1 255).set
            (4 : Int).toNat 255).set ((4 : Int) + 1).toNat 255) ∧
    ((fsC3.ResetAtlas 4 4).1.dirty = ⟨0, 0, 2, 2⟩) ∧
    ((fsC3.ResetAtlas 4 4).1.atlas.width = 4 ∧ (fsC3.ResetAtlas 4 4).1.atlas.height = 4) :=
  C5_reset_invalidation trivEnv fsC3 4 4 (by decide) (by decide) (by decide)

/-! ### Claim C8: unresolvable codepoints -/

/-- Whether a trace event is a renderer draw call. -/
def isDrawEvent : REvent → Bool
  | .draw _ => true
  | _ => false

/-- When no fallback resolves the codepoint, the fallback loop returns
its starting accumulator. -/
theorem findFallback_all_zero (env : Env) (cp : Int) (l : List Nat)
    (res : Int × Nat) (h : ∀ fb ∈ l, getGlyphIndex env fb cp = 0) :
    findFallback env cp l res = res := by
  induction l with
  | nil => rfl
  | cons fb rest ih =>
    unfold findFallback
    dsimp only
    rw [h fb (by simp)]
    rw [if_neg (by simp)]
    exact ih (fun x hx => h x (by simp [hx]))

set_option maxRecDepth 1000000 in
/-- **C8 counterexample.** The claim says a codepoint unresolvable in the
primary font and in all fallbacks is silently skipped.  In the code there
is no skip path: with an environment in which no codepoint resolves
(every glyph index is 0, the notdef glyph) and a font with no fallbacks,
`getGlyph` still creates and returns a record (with glyph index 0) and
consumes an atlas rectangle; and the per-codepoint loop of `DrawText` —
invoked here with exactly the arguments `DrawText` passes for this
context (font 0, fixed size 120, no blur or spacing, scale 1, starting
pen 0 and no previous glyph) — appends the 6 vertices of a quad for the
string consisting of just that codepoint, whose flush emits a renderer
draw call: the notdef glyph is rendered, not skipped. -/
theorem C8_counterexample :
    getGlyphIndex trivEnv 0 9731 = 0 ∧
    fontA.fallbacks = [] ∧
    ((fsC7.getGlyph trivEnv 0 9731 10 0).1).isSome = true ∧
    ((fsC7.getGlyph trivEnv 0 9731 10 0).1.getD default).index = 0 ∧
    (fsC7.getGlyph trivEnv 0 9731 10 0).2.1 = none ∧
    (fsC7.getGlyph trivEnv 0 9731 10 0).2.2.1.atlas ≠ fsC7.atlas ∧
    ((drawTextLoop trivEnv 0 120 0 0 0xffffffff 1 0 [9731] fsC7 0 (-1) []).1).nverts = 6 ∧
    ((drawTextLoop trivEnv 0 120 0 0 0xffffffff 1 0 [9731] fsC7 0 (-1) []).1.flush.2).countP
        isDrawEvent = 1 := by
  refine ⟨rfl, rfl, by decide, by decide, by decide, by decide, by decide, by decide⟩

/-- **C8 (amended).** A codepoint that resolves to glyph index 0 in the
primary font and in every fallback is not skipped: `getGlyph` renders the
primary font's notdef glyph.  Under the creation-path hypotheses (size
not below the minimum, cache miss, face available, atlas spot found) the
call returns a record with glyph index 0 and the requested codepoint, no
error, appends that record to the font's cache, and traces a shape call
and a successful atlas request — resolution failure never surfaces as an
error because there is no resolution-failure path at all. -/
theorem C8_notdef_rendered_not_skipped (env : Env) (fs : FS) (fi : Nat)
    (cp isize iblur gw gh : Int)
    (hfi : fi < fs.fonts.length)
    (hprim : getGlyphIndex env fi cp = 0)
    (hfb : ∀ fb ∈ (fs.fonts.getD fi default).fallbacks,
      getGlyphIndex env fb cp = 0)
    (hs : ¬ isize < minFontSize)
    (hmiss : chainLookup (fs.fonts.getD fi default) cp isize (clampBlur iblur) = none)
    (hface : ¬ env.faceOK fi ((isize : ℚ) / sizeScale) = false)
    (hgw : gw = (env.glyphBitmap fi cp ((isize : ℚ) / sizeScale)).1.dx +
      (clampBlur iblur + blurPadding) * 2)
    (hgh : gh = (env.glyphBitmap fi cp ((isize : ℚ) / sizeScale)).1.dy +
      (clampBlur iblur + blurPadding) * 2)
    (hfit : (fs.atlas.addRect gw gh).isSome = true) :
    resolveRenderFont env (fs.fonts.getD fi default) fi cp = (0, fi) ∧
    ∃ g, (fs.getGlyph env fi cp isize iblur).1 = some g ∧
      (fs.getGlyph env fi cp isize iblur).2.1 = none ∧
      g.index = 0 ∧ g.codepoint = cp ∧
      ((fs.getGlyph env fi cp isize iblur).2.2.1.fonts.getD fi default).glyphs
        = (fs.fonts.getD fi default).glyphs ++ [g] ∧
      (fs.getGlyph env fi cp isize iblur).2.2.2
        = [.shape fi cp, .atlasReq gw gh true] := by
  have hres : resolveRenderFont env (fs.fonts.getD fi default) fi cp = (0, fi) := by
    unfold resolveRenderFont
    dsimp only
    rw [hprim]
    rw [if_pos rfl]
    exact findFallback_all_zero env cp _ _ hfb
  refine ⟨hres, ?_⟩
  subst hgw
  subst hgh
  unfold FS.getGlyph
  rw [if_neg hs]
  dsimp only
  rw [hmiss]
  dsimp only
  rw [hres]
  dsimp only
  rw [if_neg hface]
  obtain ⟨trip, htrip⟩ := Option.isSome_iff_exists.mp hfit
  obtain ⟨gx, gy, at'⟩ := trip
  rw [htrip]
  dsimp only
  obtain ⟨hc1, -, -, hidx, hglyphs, -, -, -, -⟩ :=
    finishGlyph_spec env fs fi cp isize (clampBlur iblur)
      (clampBlur iblur + blurPadding) 0
      (env.glyphBounds fi cp ((isize : ℚ) / sizeScale))
      (env.glyphBitmap fi cp ((isize : ℚ) / sizeScale)).1
      (env.glyphBitmap fi cp ((isize : ℚ) / sizeScale)).2
      gx gy
      ((env.glyphBitmap fi cp ((isize : ℚ) / sizeScale)).1.dx +
        (clampBlur iblur + blurPadding) * 2)
      ((env.glyphBitmap fi cp ((isize : ℚ) / sizeScale)).1.dy +
        (clampBlur iblur + blurPadding) * 2)
      at' (glyphHash (fs.fonts.getD fi default) cp) hfi
  exact ⟨_, rfl, rfl, hidx, hc1, hglyphs, rfl⟩

set_option maxRecDepth 100000 in
theorem C8_notdef_rendered_not_skipped_witness :
    resolveRenderFont trivEnv (fsC7.fonts.getD 0 default) 0 9731 = (0, 0) ∧
    ∃ g, (fsC7.getGlyph trivEnv 0 9731 10 0).1 = some g ∧
      (fsC7.getGlyph trivEnv 0 9731 10 0).2.1 = none ∧
      g.index = 0 ∧ g.codepoint = 9731 ∧
      ((fsC7.getGlyph trivEnv 0 9731 10 0).2.2.1.fonts.getD 0 default).glyphs
        = (fsC7.fonts.getD 0 default).glyphs ++ [g] ∧
      (fsC7.getGlyph trivEnv 0 9731 10 0).2.2.2
        = [.shape 0 9731, .atlasReq 4 4 true] :=
  C8_notdef_rendered_not_skipped trivEnv fsC7 0 9731 10 0 4 4
    (by decide) (by decide) (by decide) (by decide) (by decide) (by decide)
    (by decide) (by decide) (by decide)

/-! ### Claim C6: vertex batching and flush contract -/

/-- The batch invariant maintained between quads: the vertex count is a
nonnegative multiple of 6 and at most 1020 (the largest multiple of 6
that the overflow guard `nverts + 6 > maxVertices` lets accumulate). -/
def batchWF (fs : FS) : Prop :=
  0 ≤ fs.nverts ∧ fs.nverts % 6 = 0 ∧ fs.nverts ≤ 1020

/-- A well-formed renderer interaction: any draw call carries a non-zero
multiple of 6, at most 1020 ≤ `maxVertices` vertices. -/
def drawEventWF (e : REvent) : Prop :=
  match e with
  | .draw vs => vs.length ≠ 0 ∧ vs.length % 6 = 0 ∧ vs.length ≤ 1020
  | _ => True

theorem mkVerts_length (fs : FS) : (mkVerts fs).length = fs.nverts.toNat := by
  simp [mkVerts]

/-- What `flush` emits and leaves behind, under the batch invariant: the
batch comes back empty, and any draw call it makes is well-formed (the
update call carries no vertices). -/
theorem flush_wf (fs : FS) (hwf : batchWF fs) :
    fs.flush.1.nverts = 0 ∧ ∀ e ∈ fs.flush.2, drawEventWF e := by
  obtain ⟨h0, h6, hle⟩ := hwf
  unfold FS.flush
  dsimp only
  by_cases hd : fs.dirty.minX < fs.dirty.maxX ∧ fs.dirty.minY < fs.dirty.maxY
  · rw [if_pos hd, if_pos hd]
    dsimp only
    by_cases hv : fs.nverts > 0
    · rw [if_pos hv, if_pos hv]
      dsimp only
      refine ⟨rfl, ?_⟩
      intro e he
      rcases List.mem_append.mp he with h | h
      · split at h
        · rcases List.mem_singleton.mp h with rfl
          trivial
        · exact absurd h (List.not_mem_nil e)
      · split at h
        · rcases List.mem_singleton.mp h with rfl
          show (mkVerts _).length ≠ 0 ∧ (mkVerts _).length % 6 = 0 ∧
            (mkVerts _).length ≤ 1020
          rw [mkVerts_length]
          dsimp only
          omega
        · exact absurd h (List.not_mem_nil e)
    · rw [if_neg hv, if_neg hv]
      dsimp only
      refine ⟨by omega, ?_⟩
      intro e he
      rcases List.mem_append.mp he with h | h
      · split at h
        · rcases List.mem_singleton.mp h with rfl
          trivial
        · exact absurd h (List.not_mem_nil e)
      · exact absurd h (List.not_mem_nil e)
  · rw [if_neg hd, if_neg hd]
    by_cases hv : fs.nverts > 0
    · rw [if_pos hv, if_pos hv]
      dsimp only
      refine ⟨rfl, ?_⟩
      intro e he
      rcases List.mem_append.mp he with h | h
      · exact absurd h (List.not_mem_nil e)
      · split at h
        · rcases List.mem_singleton.mp h with rfl
          show (mkVerts _).length ≠ 0 ∧ (mkVerts _).length % 6 = 0 ∧
            (mkVerts _).length ≤ 1020
          rw [mkVerts_length]
          omega
        · exact absurd h (List.not_mem_nil e)
    · rw [if_neg hv, if_neg hv]
      refine ⟨by omega, ?_⟩
      intro e he
      rcases List.mem_append.mp he with h | h <;>
        exact absurd h (List.not_mem_nil e)

/-- `finishGlyph` never touches the vertex batch. -/
theorem finishGlyph_nverts (env : Env) (fs : FS) (fi : Nat)
    (cp isize ib pad gIndex advance : Int) (dr : IRect)
    (mask : Option (IRect × (Int → Int → Nat)))
    (gx gy gw gh : Int) (at' : Atlas) (h0 : Nat) :
    (finishGlyph env fs fi cp isize ib pad gIndex advance dr mask gx gy gw gh at' h0).2.nverts
      = fs.nverts := by
  unfold finishGlyph
  dsimp only
  by_cases hb : ib > 0
  · rw [if_pos hb]
    obtain ⟨td, hbl⟩ := blur_eq env _ gx gy gw gh fs.params.width ib
    rw [hbl]
  · rw [if_neg hb]

/-- With no error callback installed, `getGlyph` preserves the vertex
batch and emits no renderer calls (its trace holds only shaping calls and
atlas requests). -/
theorem getGlyph_batch_frame (env : Env) (fs : FS) (fi : Nat)
    (cp isize iblur : Int) (hcb : env.errorCallback = none) :
    (fs.getGlyph env fi cp isize iblur).2.2.1.nverts = fs.nverts ∧
    ∀ e ∈ (fs.getGlyph env fi cp isize iblur).2.2.2, drawEventWF e := by
  unfold FS.getGlyph
  by_cases hs : isize < minFontSize
  · rw [if_pos hs]
    exact ⟨rfl, by intro e he; exact absurd he (List.not_mem_nil e)⟩
  rw [if_neg hs]
  dsimp only
  cases hL : chainLookup (fs.fonts.getD fi default) cp isize (clampBlur iblur) with
  | some g =>
    exact ⟨rfl, by intro e he; exact absurd he (List.not_mem_nil e)⟩
  | none =>
    by_cases hface : env.faceOK (resolveRenderFont env (fs.fonts.getD fi default) fi cp).2
        ((isize : ℚ) / sizeScale) = false
    · rw [if_pos hface]
      refine ⟨rfl, ?_⟩
      intro e he
      rcases List.mem_singleton.mp he with rfl
      trivial
    · rw [if_neg hface]
      cases hA : fs.atlas.addRect
          ((env.glyphBitmap (resolveRenderFont env (fs.fonts.getD fi default) fi cp).2 cp
            ((isize : ℚ) / sizeScale)).1.dx + (clampBlur iblur + blurPadding) * 2)
          ((env.glyphBitmap (resolveRenderFont env (fs.fonts.getD fi default) fi cp).2 cp
            ((isize : ℚ) / sizeScale)).1.dy + (clampBlur iblur + blurPadding) * 2) with
      | some trip =>
        obtain ⟨gx, gy, at'⟩ := trip
        dsimp only
        refine ⟨finishGlyph_nverts env fs fi cp isize (clampBlur iblur) _ _ _ _ _ _ _ _ _ _ _, ?_⟩
        intro e he
        rcases List.mem_cons.mp he with rfl | he
        · trivial
        rcases List.mem_singleton.mp he with rfl
        trivial
      | none =>
        rw [applyCb_none env fs .atlasFull hcb]
        dsimp only
        cases hB : fs.atlas.addRect
            ((env.glyphBitmap (resolveRenderFont env (fs.fonts.getD fi default) fi cp).2 cp
              ((isize : ℚ) / sizeScale)).1.dx + (clampBlur iblur + blurPadding) * 2)
            ((env.glyphBitmap (resolveRenderFont env (fs.fonts.getD fi default) fi cp).2 cp
              ((isize : ℚ) / sizeScale)).1.dy + (clampBlur iblur + blurPadding) * 2) with
        | none =>
          dsimp only
          refine ⟨rfl, ?_⟩
          intro e he
          simp only [List.append_nil, List.cons_append, List.nil_append] at he
          rcases List.mem_cons.mp he with rfl | he
          · trivial
          rcases List.mem_cons.mp he with rfl | he
          · trivial
          rcases List.mem_singleton.mp he with rfl
          trivial
        | some trip =>
          obtain ⟨gx, gy, at'⟩ := trip
          dsimp only
          refine ⟨finishGlyph_nverts env fs fi cp isize (clampBlur iblur) _ _ _ _ _ _ _ _ _ _ _, ?_⟩
          intro e he
          simp only [List.append_nil, List.cons_append, List.nil_append] at he
          rcases List.mem_cons.mp he with rfl | he
          · trivial
          rcases List.mem_cons.mp he with rfl | he
          · trivial
          rcases List.mem_singleton.mp he with rfl
          trivial

/-- The `TextBounds` per-codepoint loop only touches the context through
`getGlyph`: the batch is preserved and no renderer call is emitted. -/
theorem textBoundsLoop_batch_frame (env : Env) (fi : Nat) (isize iblur : Int)
    (spacing scale y : ℚ) (hcb : env.errorCallback = none) :
    ∀ (str : List Int) (fs : FS) (x minx miny maxx maxy : ℚ) (prev : Int)
      (evs : List REvent), (∀ e ∈ evs, drawEventWF e) →
      (textBoundsLoop env fi isize iblur spacing scale y str fs x minx miny
          maxx maxy prev evs).1.nverts = fs.nverts ∧
      ∀ e ∈ (textBoundsLoop env fi isize iblur spacing scale y str fs x minx
          miny maxx maxy prev evs).2.2.2.2.2.2, drawEventWF e := by
  intro str
  induction str with
  | nil =>
    intro fs x minx miny maxx maxy prev evs hevs
    exact ⟨rfl, hevs⟩
  | cons cp rest ih =>
    intro fs x minx miny maxx maxy prev evs hevs
    obtain ⟨hn, hev⟩ := getGlyph_batch_frame env fs fi cp isize iblur hcb
    have hevs1 : ∀ e ∈ evs ++ (fs.getGlyph env fi cp isize iblur).2.2.2,
        drawEventWF e := by
      intro e he
      rcases List.mem_append.mp he with h | h
      · exact hevs e h
      · exact hev e h
    unfold textBoundsLoop
    rcases hG : fs.getGlyph env fi cp isize iblur with ⟨og, oe, fs1, ev1⟩
    rw [hG] at hn hev hevs1
    dsimp only at hn hev hevs1 ⊢
    by_cases hoe : oe.isSome = true
    · rw [if_pos hoe]
      obtain ⟨h1, h2⟩ := ih fs1 x minx miny maxx maxy prev (evs ++ ev1) hevs1
      exact ⟨by rw [h1, hn], h2⟩
    · rw [if_neg hoe]
      cases og with
      | some glyph =>
        dsimp only
        obtain ⟨h1, h2⟩ := ih fs1 _ _ _ _ _ glyph.index (evs ++ ev1) hevs1
        exact ⟨by rw [h1, hn], h2⟩
      | none =>
        dsimp only
        obtain ⟨h1, h2⟩ := ih fs1 x minx miny maxx maxy (-1) (evs ++ ev1) hevs1
        exact ⟨by rw [h1, hn], h2⟩

/-- `TextBounds` preserves the vertex batch and emits no renderer
call. -/
theorem TextBounds_batch_frame (env : Env) (fs : FS) (x y : ℚ) (str : List Int)
    (hcb : env.errorCallback = none) :
    (fs.TextBounds env x y str).2.2.1.nverts = fs.nverts ∧
    ∀ e ∈ (fs.TextBounds env x y str).2.2.2, drawEventWF e := by
  unfold FS.TextBounds
  dsimp only
  by_cases hfont : fs.getState.font < 0 ∨ fs.getState.font ≥ (fs.fonts.length : Int)
  · rw [if_pos hfont]
    exact ⟨rfl, by intro e he; exact absurd he (List.not_mem_nil e)⟩
  · rw [if_neg hfont]
    dsimp only
    exact textBoundsLoop_batch_frame env _ _ _ _ _ _ hcb str fs x x _ x _ (-1) []
      (by intro e he; exact absurd he (List.not_mem_nil e))

/-- Appending the six vertices of one quad. -/
theorem vertex_six_nverts (fs : FS) (q : Quad) (color : Nat) :
    ((((((fs.vertex q.x0 q.y0 q.s0 q.t0 color).vertex
        q.x1 q.y1 q.s1 q.t1 color).vertex
        q.x1 q.y0 q.s1 q.t0 color).vertex
        q.x0 q.y0 q.s0 q.t0 color).vertex
        q.x0 q.y1 q.s0 q.t1 color).vertex
        q.x1 q.y1 q.s1 q.t1 color).nverts = fs.nverts + 6 := by
  simp only [FS.vertex]
  omega

/-- The `DrawText` per-codepoint loop maintains the batch invariant and
only ever emits well-formed renderer calls: a quad that would overflow
the fixed capacity flushes first (mid-string), and each append adds
exactly 6 vertices. -/
theorem drawTextLoop_wf (env : Env) (fi : Nat) (isize iblur : Int)
    (spacing : ℚ) (color : Nat) (scale y : ℚ) (hcb : env.errorCallback = none) :
    ∀ (str : List Int) (fs : FS) (x : ℚ) (prev : Int) (evs : List REvent),
      batchWF fs → (∀ e ∈ evs, drawEventWF e) →
      batchWF (drawTextLoop env fi isize iblur spacing color scale y str fs x prev evs).1 ∧
      ∀ e ∈ (drawTextLoop env fi isize iblur spacing color scale y str fs x prev evs).2.2,
        drawEventWF e := by
  intro str
  induction str with
  | nil =>
    intro fs x prev evs hwf hevs
    exact ⟨hwf, hevs⟩
  | cons cp rest ih =>
    intro fs x prev evs hwf hevs
    obtain ⟨hn, hev⟩ := getGlyph_batch_frame env fs fi cp isize iblur hcb
    have hevs1 : ∀ e ∈ evs ++ (fs.getGlyph env fi cp isize iblur).2.2.2,
        drawEventWF e := by
      intro e he
      rcases List.mem_append.mp he with h | h
      · exact hevs e h
      · exact hev e h
    unfold drawTextLoop
    rcases hG : fs.getGlyph env fi cp isize iblur with ⟨og, oe, fs1, ev1⟩
    rw [hG] at hn hev hevs1
    dsimp only at hn hev hevs1 ⊢
    have hwf1 : batchWF fs1 := by
      obtain ⟨a, b, c⟩ := hwf
      exact ⟨by omega, by omega, by omega⟩
    by_cases hoe : oe.isSome = true
    · rw [if_pos hoe]
      exact ih fs1 x prev (evs ++ ev1) hwf1 hevs1
    · rw [if_neg hoe]
      cases og with
      | none =>
        dsimp only
        exact ih fs1 x (-1) (evs ++ ev1) hwf1 hevs1
      | some glyph =>
        dsimp only
        by_cases hov : fs1.nverts + vertsPerQuad > maxVertices
        · rw [if_pos hov, if_pos hov]
          obtain ⟨hfn, hfe⟩ := flush_wf fs1 hwf1
          refine ih _ _ glyph.index (evs ++ ev1 ++ fs1.flush.2) ?_ ?_
          · unfold batchWF
            rw [vertex_six_nverts, hfn]
            omega
          · intro e he
            rcases List.mem_append.mp he with h | h
            · exact hevs1 e h
            · exact hfe e h
        · rw [if_neg hov, if_neg hov]
          refine ih _ _ glyph.index (evs ++ ev1 ++ []) ?_ ?_
          · unfold batchWF
            rw [vertex_six_nverts]
            obtain ⟨a, b, c⟩ := hwf1
            rw [show vertsPerQuad = 6 from rfl, show maxVertices = 1024 from rfl] at hov
            omega
          · intro e he
            rcases List.mem_append.mp he with h | h
            · exact hevs1 e h
            · exact absurd h (List.not_mem_nil e)

/-- A renderer-backed context with one loaded font, an empty batch, a
clean dirty rect and one pushed state (`getState` reads the top of the
stack, which Go requires to be nonempty; the default state selects font
0, the loaded font). -/
def fsC6 : FS := {
  params := { width := 8, height := 8, hasRenderer := true, flags := 0 },
  atlas := newAtlas 8 8,
  fonts := [fontB],
  texData := List.replicate 64 0,
  width := 8, height := 8, itw := 0, ith := 0,
  dirty := ⟨8, 8, 0, 0⟩, verts := [], tcoords := [], colors := [],
  nverts := 0, states := [default] }

set_option maxRecDepth 10000 in
/-- **C6 counterexample.** The claim says the final flush at the end of
every `DrawText` call invokes the renderer draw/update collaborator at
least once per call.  On a context with a renderer, a valid current font
and a clean texture, `DrawText` of the empty string makes no renderer
call at all (empty trace): the final flush is a no-op when the batch is
empty and the dirty rect is clean. -/
theorem C6_counterexample :
    fsC6.params.hasRenderer = true ∧
    ¬ (fsC6.getState.font < 0 ∨ fsC6.getState.font ≥ (fsC6.fonts.length : Int)) ∧
    (fsC6.fonts.getD fsC6.getState.font.toNat default).data.isNone = false ∧
    fsC6.DrawText trivEnv 5 7 [] = (5, fsC6, []) := by
  refine ⟨rfl, by decide, by decide, ?_⟩
  decide

/-- **C6 (amended).** During `DrawText` (no error callback installed,
batch invariant on entry, valid current font with loaded data), every
draw call delivered to the renderer — mid-string flushes forced by the
overflow guard before a quad append, and the final flush — carries a
vertex count that is a non-zero multiple of 6 and at most 1020 ≤ the
capacity 1024; and the call always returns with an empty batch (the
final flush is unconditional, but it invokes the renderer only when the
batch is non-empty or the texture dirty, so a call may make zero
renderer calls). -/
theorem C6_draw_batches_bounded (env : Env) (fs : FS) (x y : ℚ) (str : List Int)
    (hcb : env.errorCallback = none)
    (hwf : batchWF fs)
    (hfont : ¬ (fs.getState.font < 0 ∨ fs.getState.font ≥ (fs.fonts.length : Int)))
    (hdata : (fs.fonts.getD fs.getState.font.toNat default).data.isNone = false) :
    (∀ e ∈ (fs.DrawText env x y str).2.2, drawEventWF e) ∧
    (fs.DrawText env x y str).2.1.nverts = 0 := by
  unfold FS.DrawText
  dsimp only
  rw [if_neg hfont]
  rw [if_neg (by rw [hdata]; simp)]
  dsimp only
  have hnil : ∀ e ∈ ([] : List REvent), drawEventWF e := by
    intro e he
    exact absurd he (List.not_mem_nil e)
  have tail : ∀ (fsA : FS) (xA : ℚ) (evA : List REvent), batchWF fsA →
      (∀ e ∈ evA, drawEventWF e) →
      (∀ e ∈ evA ++ (drawTextLoop env fs.getState.font.toNat
          (wrap16 (truncQ (fs.getState.size * sizeScale)))
          (wrap16 (truncQ fs.getState.blur)) fs.getState.spacing
          fs.getState.color 1
          (y + fsA.getVertAlign (fs.fonts.getD fs.getState.font.toNat default)
            fs.getState.align (wrap16 (truncQ (fs.getState.size * sizeScale))))
          str fsA xA (-1) []).2.2 ++
        (drawTextLoop env fs.getState.font.toNat
          (wrap16 (truncQ (fs.getState.size * sizeScale)))
          (wrap16 (truncQ fs.getState.blur)) fs.getState.spacing
          fs.getState.color 1
          (y + fsA.getVertAlign (fs.fonts.getD fs.getState.font.toNat default)
            fs.getState.align (wrap16 (truncQ (fs.getState.size * sizeScale))))
          str fsA xA (-1) []).1.flush.2, drawEventWF e) ∧
      (drawTextLoop env fs.getState.font.toNat
          (wrap16 (truncQ (fs.getState.size * sizeScale)))
          (wrap16 (truncQ fs.getState.blur)) fs.getState.spacing
          fs.getState.color 1
          (y + fsA.getVertAlign (fs.fonts.getD fs.getState.font.toNat default)
            fs.getState.align (wrap16 (truncQ (fs.getState.size * sizeScale))))
          str fsA xA (-1) []).1.flush.1.nverts = 0 := by
    intro fsA xA evA hwfA hevA
    obtain ⟨hL1, hL2⟩ := drawTextLoop_wf env fs.getState.font.toNat
      (wrap16 (truncQ (fs.getState.size * sizeScale)))
      (wrap16 (truncQ fs.getState.blur)) fs.getState.spacing
      fs.getState.color 1
      (y + fsA.getVertAlign (fs.fonts.getD fs.getState.font.toNat default)
        fs.getState.align (wrap16 (truncQ (fs.getState.size * sizeScale))))
      hcb str fsA xA (-1) [] hwfA hnil
    obtain ⟨hF1, hF2⟩ := flush_wf _ hL1
    refine ⟨?_, hF1⟩
    intro e he
    rcases List.mem_append.mp he with h | h
    · rcases List.mem_append.mp h with h | h
      · exact hevA e h
      · exact hL2 e h
    · exact hF2 e h
  by_cases hleft : hasFlag fs.getState.align AlignLeft = true
  · rw [if_pos hleft]
    exact tail fs x [] hwf hnil
  · rw [if_neg hleft]
    by_cases hright : hasFlag fs.getState.align AlignRight = true
    · rw [if_pos hright]
      dsimp only
      obtain ⟨hT1, hT2⟩ := TextBounds_batch_frame env fs x y str hcb
      have hwfT : batchWF (fs.TextBounds env x y str).2.2.1 := by
        obtain ⟨a, b, c⟩ := hwf
        exact ⟨by omega, by omega, by omega⟩
      exact tail _ _ _ hwfT hT2
    · rw [if_neg hright]
      by_cases hcen : hasFlag fs.getState.align AlignCenter = true
      · rw [if_pos hcen]
        dsimp only
        obtain ⟨hT1, hT2⟩ := TextBounds_batch_frame env fs x y str hcb
        have hwfT : batchWF (fs.TextBounds env x y str).2.2.1 := by
          obtain ⟨a, b, c⟩ := hwf
          exact ⟨by omega, by omega, by omega⟩
        exact tail _ _ _ hwfT hT2
      · rw [if_neg hcen]
        exact tail fs x [] hwf hnil

theorem C6_draw_batches_bounded_witness :
    (∀ e ∈ (fsC6.DrawText trivEnv 5 7 [9731]).2.2, drawEventWF e) ∧
    (fsC6.DrawText trivEnv 5 7 [9731]).2.1.nverts = 0 :=
  C6_draw_batches_bounded trivEnv fsC6 5 7 [9731] rfl
    ⟨by decide, by decide, by decide⟩ (by decide) (by decide)

end GoFontstash
